import Mathlib

/-!
Verification of the knifetch repository (TypeScript): a shallow embedding of
its cookie model (`src/cookie.ts`), cookie jar (`src/cookiejar.ts`, provided
unnamed) and retry engine (`src/retry.ts`), together with theorems settling
the frozen claims about the specification.

JS strings are modelled as `List Char` (the sequence of code units; all the
strings this library manipulates are ASCII).  JS numbers appearing as cookie
`Max-Age` values are modelled as `JsNum` (either NaN or an exact rational);
this captures `Number.isInteger`, comparisons with `< 0`, and decimal
printing on the fragment the code exercises.
-/

deriving instance DecidableEq for Except

namespace Knifetch

/-- JS strings, modelled as lists of characters. -/
abbrev Str := List Char

/-- Convert a Lean string literal into the `Str` model. -/
def str (s : String) : Str := s.data

/-- The whitespace characters removed by JS `String.prototype.trim` that can
occur in the ASCII/Latin-1 range (space, tab, LF, VT, FF, CR, NBSP). -/
def isJsWS (c : Char) : Bool :=
  c = ' ' || c = '\t' || c = '\n' || c = '\x0b' || c = '\x0c' || c = '\r' || c = '\xa0'

/-- Model of JS `String.prototype.trim`: drop whitespace from both ends. -/
def jsTrim (s : Str) : Str :=
  ((s.dropWhile isJsWS).reverse.dropWhile isJsWS).reverse

/-- Model of JS `String.prototype.split` with a one-character separator:
`"".split(sep)` is `[""]`, and separators at the ends produce empty pieces,
exactly as in JS. -/
def splitOnChar (sep : Char) : Str → List Str
  | [] => [[]]
  | c :: rest =>
    if c = sep then [] :: splitOnChar sep rest
    else
      match splitOnChar sep rest with
      | [] => [[c]]
      | h :: t => (c :: h) :: t

/-- Model of JS `Array.prototype.join` with a string separator. -/
def joinSep (sep : Str) : List Str → Str
  | [] => []
  | [x] => x
  | x :: xs => x ++ sep ++ joinSep sep xs

/-- Model of JS `String.prototype.toLowerCase` (ASCII). -/
def jsToLower (s : Str) : Str := s.map Char.toLower

/-- The decimal digit character for `n < 10`. -/
def digitChar (n : Nat) : Char := Char.ofNat (48 + n)

/-- Base-10 digit expansion with explicit fuel (callers supply `n + 1`, which
is always sufficient); fuel keeps the definition kernel-computable. -/
def natDigitsAux : Nat → Nat → Str
  | 0, _ => []
  | fuel + 1, n =>
    if n < 10 then [digitChar n]
    else natDigitsAux fuel (n / 10) ++ [digitChar (n % 10)]

/-- Model of JS number-to-string conversion for a non-negative integer. -/
def natDigits (n : Nat) : Str := natDigitsAux (n + 1) n

/-- Model of JS number-to-string conversion for an integer. -/
def jsIntToStr (i : Int) : Str :=
  if i < 0 then '-' :: natDigits i.natAbs else natDigits i.toNat

/-- Numeric value of a string of decimal digits. -/
def digitsVal (s : Str) : Nat :=
  s.foldl (fun a c => a * 10 + (c.toNat - 48)) 0

/-- A JS number as it can appear in a cookie `maxAge` field: NaN, or an
exactly representable finite value (a rational). -/
inductive JsNum where
  | nan : JsNum
  | num (q : ℚ) : JsNum
deriving DecidableEq, Repr

/-- Model of JS `Number.isInteger`. -/
def JsNum.isInteger : JsNum → Bool
  | .nan => false
  | .num q => q.den = 1

/-- Model of the JS comparison `x < 0` (false for NaN). -/
def JsNum.ltZero : JsNum → Bool
  | .nan => false
  | .num q => q < 0

/-- Is every character a decimal digit? -/
def allDigits (s : Str) : Bool := s.all fun c => '0' ≤ c && c ≤ '9'

/-- Value of an unsigned decimal literal `digits` or `digits.digits`
(either side of the dot may be empty, but not both).  Returns `none` (NaN)
for anything else.  This models the fragment of JS `Number()` string
conversion that the cookie code can feed it from serialized attributes
(hex/exponent forms are outside that fragment). -/
def parseUnsigned (s : Str) : Option ℚ :=
  match splitOnChar '.' s with
  | [ip] => if ip ≠ [] && allDigits ip then some (digitsVal ip) else none
  | [ip, fp] =>
    if (ip ≠ [] || fp ≠ []) && allDigits ip && allDigits fp then
      some ((digitsVal ip : ℚ) + (digitsVal fp : ℚ) / ((10 : ℚ) ^ fp.length))
    else none
  | _ => none

/-- Model of JS `Number(string)` on an already-trimmed string: empty means
0, optional sign, then an unsigned decimal literal; otherwise NaN. -/
def jsToNumberT : Str → JsNum
  | [] => .num 0
  | '-' :: rest => match parseUnsigned rest with | some q => .num (-q) | none => .nan
  | '+' :: rest => match parseUnsigned rest with | some q => .num q | none => .nan
  | t => match parseUnsigned t with | some q => .num q | none => .nan

/-- Model of JS `Number(string)`: trim, then convert. -/
def jsToNumber (s : Str) : JsNum := jsToNumberT (jsTrim s)

/-- The `expires` field of a cookie: either a JS `Date` (possibly invalid,
i.e. holding NaN, modelled by `none`) or a raw numeric epoch-milliseconds
value.  The distinction matters for JS truthiness: a `Date` object is always
truthy while the number `0` is falsy. -/
inductive ExpiresV where
  | dateV (ms : Option Int) : ExpiresV
  | numV (ms : Int) : ExpiresV
deriving DecidableEq, Repr

/-- JS truthiness of a cookie's `expires` field. -/
def expiresTruthy : Option ExpiresV → Bool
  | none => false
  | some (.dateV _) => true
  | some (.numV m) => m ≠ 0

/-- Model of `Number(cookie.expires) < now` (false when the value is NaN). -/
def expiresLtNow (e : Option ExpiresV) (now : Int) : Bool
  := match e with
  | none => false
  | some (.dateV none) => false
  | some (.dateV (some m)) => m < now
  | some (.numV m) => m < now

/-- The `Cookie` record of `src/cookie.ts`.  Optional string fields model
`undefined` as `none`; `secure`/`httpOnly`/`partitioned` are optional
booleans in the source but every read is a truthiness test, so `Bool` with
default `false` is an adequate model; `sameSite` is a string at runtime
(the TS enum annotation is a cast, not a check). -/
structure Cookie where
  name : Str
  value : Str
  expires : Option ExpiresV := none
  maxAge : Option JsNum := none
  domain : Option Str := none
  path : Option Str := none
  secure : Bool := false
  httpOnly : Bool := false
  partitioned : Bool := false
  sameSite : Option Str := none
  unparsed : Option (List Str) := none
deriving DecidableEq, Repr

/-- JS truthiness of an optional string field (`undefined` and `""` are
falsy). -/
def strTruthy : Option Str → Bool
  | none => false
  | some s => s ≠ []

/-- JS template-literal coercion of a possibly-`undefined` string. -/
def jsOptStr : Option Str → Str
  | none => str "undefined"
  | some s => s

/-- The two kinds of exception `cookieToString` can throw:
`SyntaxError` (invalid name/value/domain/path) and `RangeError`
(negative `Max-Age`).  Messages are carried verbatim except that the
original quote characters around interpolated values are dropped. -/
inductive CookieError where
  | syntaxErr (msg : Str)
  | rangeErr (msg : Str)
deriving DecidableEq, Repr

/-- A character excluded by the name regexp character class
`[^\s"(),:;<=>?@[\\\]\x7b\x7d]` of `FIELD_CONTENT_REGEXP`. -/
def nameBadChar (c : Char) : Bool :=
  isJsWS c || c.toNat = 0x22 || c.toNat = 0x28 || c.toNat = 0x29 || c.toNat = 0x2c ||
  c.toNat = 0x3a || c.toNat = 0x3b || c.toNat = 0x3c || c.toNat = 0x3d || c.toNat = 0x3e ||
  c.toNat = 0x3f || c.toNat = 0x40 || c.toNat = 0x5b || c.toNat = 0x5c || c.toNat = 0x5d ||
  c.toNat = 0x7b || c.toNat = 0x7d

/-- Model of `FIELD_CONTENT_REGEXP.test`: every character lies in
`0x20..0x7e` (the lookahead) and at least one character, none of them from
the excluded class. -/
def fieldContentOk (s : Str) : Bool :=
  s ≠ [] && s.all fun c => 0x20 ≤ c.toNat && c.toNat ≤ 0x7e && !nameBadChar c

/-- `validateName` from `src/cookie.ts`: throws only for a truthy
(non-empty) name failing the regexp. -/
def validateName (name : Str) : Except CookieError Unit :=
  if name ≠ [] && !fieldContentOk name then
    .error (.syntaxErr (str "Invalid cookie name: " ++ name))
  else .ok ()

/-- `validatePath` from `src/cookie.ts`: scans characters left to right and
throws at the first character outside `0x20..0x7e` or equal to `;`. -/
def validatePath (path : Str) : Except CookieError Unit :=
  match path with
  | [] => .ok ()
  | c :: rest =>
    if c.toNat < 0x20 || c.toNat > 0x7e || c = ';' then
      .error (.syntaxErr (str "Cookie path contains invalid character: " ++ [c]))
    else validatePath rest

/-- `validateValue` from `src/cookie.ts`: scans characters left to right;
throws at the first control/quote/comma/semicolon/backslash/DEL character,
or at the first character above `0x80`. -/
def validateValue (name : Str) (value : Str) : Except CookieError Unit :=
  match value with
  | [] => .ok ()
  | c :: rest =>
    if c.toNat < 0x21 || c.toNat = 0x22 || c.toNat = 0x2c ||
        c.toNat = 0x3b || c.toNat = 0x5c || c.toNat = 0x7f then
      .error (.syntaxErr (str "RFC2616 cookie " ++ name ++ str " cannot contain character " ++ [c]))
    else if c.toNat > 0x80 then
      .error (.syntaxErr (str "RFC2616 cookie " ++ name ++ str " can only have US-ASCII chars as value"))
    else validateValue name rest

/-- `validateDomain` from `src/cookie.ts`: rejects a leading `-` and a
trailing `.` or `-` (the empty domain passes, as `charAt` then yields the
empty string in JS). -/
def validateDomain (domain : Str) : Except CookieError Unit :=
  if domain.head? = some '-' || domain.getLast? = some '.' || domain.getLast? = some '-' then
    .error (.syntaxErr (str "Invalid first/last char in cookie domain: " ++ domain))
  else .ok ()

/-- Civil date from days since the Unix epoch (Hinnant's algorithm);
models the Gregorian calendar arithmetic of the host `Date`. -/
def civilFromDays (z0 : Int) : Int × Nat × Nat :=
  let z := z0 + 719468
  let era := z.ediv 146097
  let doe := (z.emod 146097).toNat
  let yoe := (doe - doe / 1460 + doe / 36524 - doe / 146096) / 365
  let doy := doe - (365 * yoe + yoe / 4 - yoe / 100)
  let mp := (5 * doy + 2) / 153
  let d := doy - (153 * mp + 2) / 5 + 1
  let m := if mp < 10 then mp + 3 else mp - 9
  ((era * 400 + yoe : Int) + (if m ≤ 2 then 1 else 0), m, d)

/-- Days since the Unix epoch from a civil date (inverse of
`civilFromDays`). -/
def daysFromCivil (y0 : Int) (m d : Nat) : Int :=
  let y := if m ≤ 2 then y0 - 1 else y0
  let era := y.ediv 400
  let yoe := (y.emod 400).toNat
  let mp := if 2 < m then m - 3 else m + 9
  let doy := (153 * mp + 2) / 5 + d - 1
  let doe := yoe * 365 + yoe / 4 - yoe / 100 + doy
  era * 146097 + (doe : Int) - 719468

/-- Three-letter UTC weekday names, `0` = Sunday. -/
def dayName : Nat → Str
  | 0 => str "Sun" | 1 => str "Mon" | 2 => str "Tue" | 3 => str "Wed"
  | 4 => str "Thu" | 5 => str "Fri" | _ => str "Sat"

/-- Three-letter month names, `1` = January. -/
def monthName : Nat → Str
  | 1 => str "Jan" | 2 => str "Feb" | 3 => str "Mar" | 4 => str "Apr"
  | 5 => str "May" | 6 => str "Jun" | 7 => str "Jul" | 8 => str "Aug"
  | 9 => str "Sep" | 10 => str "Oct" | 11 => str "Nov" | _ => str "Dec"

/-- Zero-pad to two digits. -/
def pad2 (n : Nat) : Str := if n < 10 then '0' :: natDigits n else natDigits n

/-- Zero-pad to four digits. -/
def pad4 (n : Nat) : Str :=
  if n < 10 then str "000" ++ natDigits n
  else if n < 100 then str "00" ++ natDigits n
  else if n < 1000 then '0' :: natDigits n
  else natDigits n

/-- Model of the host `Date.prototype.toUTCString` on an epoch-milliseconds
value (`none` is an invalid date, which prints as `Invalid Date`); the
civil date components are taken by projection from `civilFromDays`. -/
def toUTCString (e : Option Int) : Str :=
  match e with
  | none => str "Invalid Date"
  | some ms =>
    dayName ((ms.ediv 86400000 + 4).emod 7).toNat ++ str ", " ++
      pad2 (civilFromDays (ms.ediv 86400000)).2.2 ++ [' '] ++
      monthName (civilFromDays (ms.ediv 86400000)).2.1 ++
      [' '] ++ pad4 (civilFromDays (ms.ediv 86400000)).1.toNat ++ [' '] ++
      pad2 ((ms.emod 86400000).toNat / 3600000) ++ [':'] ++
      pad2 ((ms.emod 86400000).toNat / 60000 % 60) ++ [':'] ++
      pad2 ((ms.emod 86400000).toNat / 1000 % 60) ++ str " GMT"

/-- `new Date(expires)` followed by `toUTCString`, as in the `Expires`
branch of `cookieToString` (a numeric epoch value becomes a `Date` first). -/
def expiresToUTC : ExpiresV → Str
  | .numV m => toUTCString (some m)
  | .dateV o => toUTCString o

/-- Parse a non-empty all-digits string. -/
def parseNatStr (s : Str) : Option Nat :=
  if s ≠ [] && allDigits s then some (digitsVal s) else none

/-- Month number (1-12) for a three-letter month name. -/
def monthIndex (s : Str) : Option Nat :=
  (List.range 12).findSome? fun i => if s = monthName (i + 1) then some (i + 1) else none

/-- Model of the host `new Date(string)` parser on the RFC-1123-style
strings this library itself emits (`"Thu, 01 Jan 1970 00:00:00 GMT"`);
anything else is modelled as an invalid date.  It is only reached through
the `expires` attribute of `parseSetCookie`, which no claim exercises. -/
def jsDateParse (s : Str) : Option Int :=
  match splitOnChar ' ' (jsTrim s) with
  | [_wd, dd, mon, yyyy, time, gmt] =>
    if gmt = str "GMT" then
      match parseNatStr dd, monthIndex mon, parseNatStr yyyy, splitOnChar ':' time with
      | some d, some m, some y, [hs, mins, ss] =>
        match parseNatStr hs, parseNatStr mins, parseNatStr ss with
        | some hh, some mi, some sec =>
          some (daysFromCivil (y : Int) m d * 86400000 +
            ((hh * 3600 + mi * 60 + sec) * 1000 : Nat))
        | _, _, _ => none
      | _, _, _, _ => none
    else none
  | _ => none

/-- `Number.isInteger(cookie.maxAge)` (false for `undefined`). -/
def optIsInteger : Option JsNum → Bool
  | none => false
  | some j => j.isInteger

/-- `cookie.maxAge < 0` (false for `undefined` and NaN). -/
def optLtZero : Option JsNum → Bool
  | none => false
  | some j => j.ltZero

/-- Rendering of `cookie.maxAge` inside a JS template literal.  The code
only interpolates it after `Number.isInteger` has returned true, so only
the integer case is modelled exactly. -/
def jsNumOptToStr : Option JsNum → Str
  | none => str "undefined"
  | some .nan => str "NaN"
  | some (.num q) => jsIntToStr q.num

/-- The reserved-prefix fallback of `cookieToString` (lines 88-97 of
`src/cookie.ts`): it mutates the input cookie record in place; here the
mutated record is returned.  A name starting with `__Secure` forces
`secure`; a name starting with `__Host` additionally forces `path = "/"`
and deletes `domain`. -/
def mutateReserved (c : Cookie) : Cookie :=
  let c1 := if (str "__Secure").isPrefixOf c.name then { c with secure := true } else c
  if (str "__Host").isPrefixOf c1.name then
    { c1 with path := some (str "/"), secure := true, domain := none }
  else c1

/-- The `Max-Age` step of `cookieToString`. -/
def segMaxAge (c : Cookie) (out : List Str) : Except CookieError (List Str) :=
  if optIsInteger c.maxAge then
    if optLtZero c.maxAge then
      .error (.rangeErr (str "Cannot serialize cookie as Max-Age must be >= 0: received " ++
        jsNumOptToStr c.maxAge))
    else .ok (out ++ [str "Max-Age=" ++ jsNumOptToStr c.maxAge])
  else .ok out

/-- The `Domain` step of `cookieToString`. -/
def segDomain (c : Cookie) (out : List Str) : Except CookieError (List Str) :=
  if strTruthy c.domain then
    match validateDomain (c.domain.getD []) with
    | .error e => .error e
    | .ok _ => .ok (out ++ [str "Domain=" ++ c.domain.getD []])
  else .ok out

/-- The `SameSite` step of `cookieToString`. -/
def segSameSite (c : Cookie) (out : List Str) : List Str :=
  if strTruthy c.sameSite then out ++ [str "SameSite=" ++ c.sameSite.getD []] else out

/-- The `Path` step of `cookieToString`. -/
def segPath (c : Cookie) (out : List Str) : Except CookieError (List Str) :=
  if strTruthy c.path then
    match validatePath (c.path.getD []) with
    | .error e => .error e
    | .ok _ => .ok (out ++ [str "Path=" ++ c.path.getD []])
  else .ok out

/-- The `Expires` step of `cookieToString`. -/
def segExpires (c : Cookie) (out : List Str) : List Str :=
  if expiresTruthy c.expires then
    out ++ [str "Expires=" ++ expiresToUTC (c.expires.getD (.numV 0))]
  else out

/-- The `unparsed` step of `cookieToString` (note that an empty array is
truthy in JS, so `some []` still appends the empty joined entry). -/
def segUnparsed (c : Cookie) (out : List Str) : List Str :=
  match c.unparsed with
  | some l => out ++ [joinSep (str "; ") l]
  | none => out

/-- The steps of `cookieToString` after `SameSite`, in source order:
`Path`, `Expires`, unparsed entries. -/
def serializeTail2 (c : Cookie) (out : List Str) : Except CookieError (List Str) :=
  match segPath c (segSameSite c out) with
  | .error e => .error e
  | .ok out => .ok (segUnparsed c (segExpires c out))

/-- The steps of `cookieToString` after `Max-Age`, in source order:
`Domain`, `SameSite`, `Path`, `Expires`, unparsed entries. -/
def serializeTail (c : Cookie) (out : List Str) : Except CookieError (List Str) :=
  match segDomain c out with
  | .error e => .error e
  | .ok out => serializeTail2 c out

/-- The segments `out` accumulated by `cookieToString` after validation and
the reserved-prefix mutation, in source order: `name=value`, `Secure`,
`HttpOnly`, `Partitioned`, `Max-Age`, `Domain`, `SameSite`, `Path`,
`Expires`, unparsed entries. -/
def serializeSegs (c : Cookie) : Except CookieError (List Str) :=
  match segMaxAge c ([c.name ++ '=' :: c.value]
      ++ (if c.secure then [str "Secure"] else [])
      ++ (if c.httpOnly then [str "HttpOnly"] else [])
      ++ (if c.partitioned then [str "Partitioned"] else [])) with
  | .error e => .error e
  | .ok out => serializeTail c out

/-- `cookieToString` from `src/cookie.ts`, returning both the thrown-or-
returned result and the final state of the (mutated) input record.  The
`name=value` pair is pushed before the mutation in the source, but the
mutation never changes `name` or `value`, so serializing from the mutated
record is equivalent. -/
def cookieToStringFull (cookie : Cookie) : Except CookieError Str × Cookie :=
  if cookie.name = [] then (.ok [], cookie)
  else
    match validateName cookie.name with
    | .error e => (.error e, cookie)
    | .ok _ =>
      match validateValue cookie.name cookie.value with
      | .error e => (.error e, cookie)
      | .ok _ =>
        (match serializeSegs (mutateReserved cookie) with
         | .error e => .error e
         | .ok out => .ok (joinSep (str "; ") out), mutateReserved cookie)

/-- The string (or error) produced by `cookieToString`. -/
def cookieToStringE (cookie : Cookie) : Except CookieError Str :=
  (cookieToStringFull cookie).1

/-- The state of the input record after `cookieToString` returns or throws. -/
def cookieToStringMut (cookie : Cookie) : Cookie :=
  (cookieToStringFull cookie).2

/-- One entry of `attrs` in `parseSetCookie`: split a (trimmed) segment at
its `=` signs, the first piece being the key and the rest re-joined as the
value.  The `[]` case is unreachable (`split` never returns an empty
array); it models the source's non-null assertion on `key`. -/
def splitFirstEq (s : Str) : Str × Str :=
  match splitOnChar '=' s with
  | [] => ([], [])
  | k :: vs => (k, joinSep ['='] vs)

/-- Model of `value.replace(/^\./, "")`: strip one leading dot. -/
def stripDot (s : Str) : Str :=
  match s with
  | [] => []
  | c :: r => if c = '.' then r else c :: r

/-- The `switch` body of the attribute loop in `parseSetCookie`; `none`
models the `return null` taken for a negative `max-age`. -/
def applyAttr (cookie : Cookie) (kv : Str × Str) : Option Cookie :=
  let k := jsToLower kv.1
  if k = str "expires" then
    some { cookie with expires := some (.dateV (jsDateParse kv.2)) }
  else if k = str "max-age" then
    let ma := jsToNumber kv.2
    if ma.ltZero then none else some { cookie with maxAge := some ma }
  else if k = str "domain" then
    some { cookie with domain := some (stripDot (jsTrim kv.2)) }
  else if k = str "path" then
    some { cookie with path := some kv.2 }
  else if k = str "secure" then
    some { cookie with secure := true }
  else if k = str "httponly" then
    some { cookie with httpOnly := true }
  else if k = str "samesite" then
    some { cookie with sameSite := some kv.2 }
  else
    some { cookie with unparsed := some ((cookie.unparsed.getD []) ++ [kv.1 ++ '=' :: kv.2]) }

/-- The attribute loop of `parseSetCookie`, short-circuiting on `none`. -/
def applyAttrs (cookie : Cookie) : List (Str × Str) → Option Cookie
  | [] => some cookie
  | kv :: rest =>
    match applyAttr cookie kv with
    | none => none
    | some c => applyAttrs c rest

/-- The reserved-prefix policy checks at the end of `parseSetCookie`. -/
def reservedChecks (c : Cookie) : Option Cookie :=
  if (str "__Secure-").isPrefixOf c.name && !c.secure then none
  else if (str "__Host-").isPrefixOf c.name then
    if !c.secure then none
    else if c.domain ≠ none then none
    else if c.path ≠ some (str "/") then none
    else some c
  else some c

/-- `parseSetCookie` from `src/cookie.ts`.  The `attrs = []` branch models
the source's `if (!attrs[0]) return null` (only reachable when the split
produced no entries, which never happens; a two-element tuple is always
truthy in JS). -/
def parseSetCookie (value : Str) : Option Cookie :=
  match (splitOnChar ';' value).map (fun attr => splitFirstEq (jsTrim attr)) with
  | [] => none
  | (n, v) :: rest =>
    match applyAttrs { name := n, value := v } rest with
    | none => none
    | some c => reservedChecks c

/-- `getSetCookies` from `src/cookie.ts`: parse each `Set-Cookie` header
value separately and skip the dropped ones.  The `Headers` object is
modelled by the list of its `Set-Cookie` values in order
(`headersGetSetCookie`). -/
def getSetCookies (setCookieHeaders : List Str) : List Cookie :=
  setCookieHeaders.filterMap parseSetCookie

/-- `out[key] = value` on a JS plain object used as a map: overwrite in
place if the key exists, otherwise append (insertion order preserved). -/
def recordSet (m : List (Str × Str)) (k v : Str) : List (Str × Str) :=
  if m.any (fun p => p.1 = k) then
    m.map fun p => if p.1 = k then (k, v) else p
  else m ++ [(k, v)]

/-- `getCookies` from `src/cookie.ts` (the client `Cookie` header parser).
The `Headers` argument is modelled by `headers.get("Cookie")`: `none` when
absent.  The `[]` branch of the inner match models the source's
`if (cookieKey === undefined) throw new SyntaxError(...)` — the original
message reads `Cookie cannot start with =` (quotes dropped). -/
def getCookies (cookieHeader : Option Str) : Except CookieError (List (Str × Str)) :=
  match cookieHeader with
  | none => .ok []
  | some cookie =>
    (splitOnChar ';' cookie).foldlM
      (fun out kv =>
        match splitOnChar '=' kv with
        | [] => .error (.syntaxErr (str "Cookie cannot start with ="))
        | k :: vs => .ok (recordSet out (jsTrim k) (joinSep ['='] vs)))
      []

/-- A parsed URL, modelling the host `URL` object as the cookie-jar code
reads it (`protocol` keeps the trailing colon, e.g. `"https:"`). -/
structure URLModel where
  protocol : Str
  hostname : Str
  pathname : Str
deriving DecidableEq, Repr

/-- A response as `CookieJar.setCookie` reads it: its resolved URL and the
list of its `Set-Cookie` header values in order. -/
structure ResponseModel where
  url : URLModel
  setCookieHeaders : List Str
deriving DecidableEq, Repr

/-- The cookie jar's backing store `_store`, in insertion order. -/
abbrev Jar := List Cookie

namespace CookieJar

/-- `_removeExpired` from `src/cookiejar.ts`: drop every cookie whose
truthy `expires` lies before `now` (`Date.now()` is passed explicitly). -/
def removeExpired (now : Int) (store : Jar) : Jar :=
  store.filter fun cookie => !(expiresTruthy cookie.expires && expiresLtNow cookie.expires now)

/-- The matcher argument of `removeCookies` (all fields optional). -/
structure Matcher where
  domain : Option Str := none
  path : Option Str := none
  name : Option Str := none

/-- `removeCookies` from `src/cookiejar.ts`.  Truthiness of the matcher
fields selects the rule: no domain clears the jar; domain without path
matches on domain+name; otherwise domain+name plus the retrieval
path-matching rule. -/
def removeCookies (m : Matcher) (store : Jar) : Jar :=
  store.filter fun c =>
    if !strTruthy m.domain then false
    else if !strTruthy m.path then
      !(c.domain = m.domain && some c.name = m.name)
    else
      let p := m.path.getD []
      !(c.domain = m.domain && some c.name = m.name &&
        (if p.getLast? = some '/' then
          match c.path with
          | some cp => p.isPrefixOf cp
          | none => false
        else
          (c.path = m.path ||
            match c.path with
            | some cp => (p ++ ['/']).isPrefixOf cp
            | none => false)))

/-- `setCookie` from `src/cookiejar.ts`: parse all `Set-Cookie` values,
default a missing `domain` to the response hostname and a missing `path`
to the full `url.pathname`, then filter (hostname `localhost` skips every
check; a `secure` cookie needs an HTTPS response; the cookie domain must
equal the response hostname or be dot-suffixed by it; an already-expired
cookie triggers removal of matching stored cookies instead of being kept)
and append the survivors to the store.  The `removeCookies` call inside the
filter mutates `_store` while the filter runs, so the store is threaded
through the fold. -/
def setCookie (now : Int) (response : ResponseModel) (store : Jar) : Jar :=
  let url := response.url
  let domain := url.hostname
  let defaulted := (getSetCookies response.setCookieHeaders).map fun cookie =>
    let c1 := if !strTruthy cookie.domain then { cookie with domain := some domain } else cookie
    if !strTruthy c1.path then { c1 with path := some url.pathname } else c1
  let stepped := defaulted.foldl
    (fun (acc : Jar × List Cookie) cookie =>
      if domain = str "localhost" then (acc.1, acc.2 ++ [cookie])
      else if cookie.secure && url.protocol ≠ str "https:" then acc
      else if !(cookie.domain = some domain ||
          ('.' :: domain).isSuffixOf (cookie.domain.getD [])) then acc
      else if expiresTruthy cookie.expires && expiresLtNow cookie.expires now then
        (removeCookies { domain := cookie.domain, path := cookie.path, name := some cookie.name } acc.1,
          acc.2)
      else (acc.1, acc.2 ++ [cookie]))
    (store, [])
  stepped.1 ++ stepped.2

/-- The retrieval path-matching predicate of `CookieJar.getCookies`: a
cookie path ending in `/` must be a literal prefix of the target path;
otherwise the target must equal it or extend it past a `/`.  When the
cookie has no path, the JS template literal coerces `undefined` to the
string `"undefined"`. -/
def pathMatches (targetPath : Str) (cpath : Option Str) : Bool :=
  if (match cpath with | some p => p.getLast? == some '/' | none => false) then
    (cpath.getD []).isPrefixOf targetPath
  else
    some targetPath = cpath || (jsOptStr cpath ++ ['/']).isPrefixOf targetPath

/-- `getCookies` from `src/cookiejar.ts`: sweep expired cookies, select by
domain (exact or dot-suffix of the target hostname) and path, then
serialize each selected cookie with `cookieToString`.  A thrown validation
error aborts the map, hence the `Except`. -/
def getCookies (now : Int) (input : URLModel) (store : Jar) : Except CookieError (List Str) :=
  let domain := input.hostname
  let swept := removeExpired now store
  let cookies := swept.filter fun cookie =>
    (cookie.domain = some domain || ('.' :: jsOptStr cookie.domain).isSuffixOf domain) &&
      pathMatches input.pathname cookie.path
  cookies.mapM fun cookie => cookieToStringE cookie

end CookieJar

/-! ## Retry engine (`src/retry.ts`)

The engine drives repeated invocation of an asynchronous operation.  Real
time is abstracted away: what each invocation of the operation does,
relative to that attempt's timeout timer, is an `AttemptSpec` — the
operation settles with a value before the timer fires, rejects before the
timer fires, or is still pending when the timer fires (the
`Promise.race([timeoutPromise, fn()])` of the source, whose loser is never
cancelled, only ignored). -/

/-- Behaviour of one invocation of the retried operation, relative to that
attempt's timeout timer. -/
inductive AttemptSpec (T : Type) where
  | resolves (v : T)
  | rejects
  | hangs
deriving DecidableEq, Repr

/-- The four message discriminators of `RetryError`. -/
inductive RetryErrorKind where
  | MAX_RETRIES_REACHED
  | RETRY_IS_ABORTED
  | ATTEMPT_PREDICATE_FAILED
  | ATTEMPT_TIMEOUT_REACHED
deriving DecidableEq, Repr

/-- Final resolution of a `retry` call: the operation's value, or a thrown
`RetryError`. -/
inductive RetryOutcome (T : Type) where
  | success (v : T)
  | failure (e : RetryErrorKind)
deriving DecidableEq, Repr

/-- What is reported to the `onAttemptFailed` diagnostic callback for one
failed attempt: a `RetryError` (timeout or predicate) or the operation's
own rejection reason. -/
inductive AttemptDiag where
  | retryErr (e : RetryErrorKind)
  | opError
deriving DecidableEq, Repr

/-- The deterministic environment of one `retry` call: the behaviour of the
n-th invocation of `fn` (1-based) and the optional success predicate. -/
structure RetryEnv (T : Type) where
  attempt : Nat → AttemptSpec T
  predicate : Option (T → Bool)

/-- `options?.maxTries || 5`: `undefined` and `0` are falsy and fall back
to the default of 5. -/
def effectiveMaxTries (o : Option Nat) : Nat :=
  match o with
  | none => 5
  | some 0 => 5
  | some n => n

/-- Everything observable about the inner `work` loop once it settles: its
outcome, how many times `fn` was invoked, and the sequence of failures
handed to `onAttemptFailed`. -/
structure WorkResult (T : Type) where
  outcome : RetryOutcome T
  invocations : Nat
  diags : List AttemptDiag
deriving Repr

/-- The recursive `work` closure of `retry`: increment the attempt counter;
past the ceiling, throw `MAX_RETRIES_REACHED` without invoking the
operation; otherwise invoke it racing the timeout, check the predicate on a
resolved value, and on any attempt failure report the diagnostic and
recurse.  `fuel` makes the recursion structural (callers pass
`maxTries + 1`, which is always enough: the loop recurses at most
`maxTries` times before the counter passes the ceiling). -/
def work (env : RetryEnv T) (maxTries : Nat) :
    Nat → Nat → Nat → List AttemptDiag → WorkResult T
  | 0, _, invocations, diags => ⟨.failure .MAX_RETRIES_REACHED, invocations, diags⟩
  | fuel + 1, attemptedTimes, invocations, diags =>
    let n := attemptedTimes + 1
    if maxTries < n then ⟨.failure .MAX_RETRIES_REACHED, invocations, diags⟩
    else
      match env.attempt n with
      | .hangs =>
        work env maxTries fuel n (invocations + 1)
          (diags ++ [.retryErr .ATTEMPT_TIMEOUT_REACHED])
      | .rejects =>
        work env maxTries fuel n (invocations + 1) (diags ++ [.opError])
      | .resolves v =>
        match env.predicate with
        | some p =>
          if p v then ⟨.success v, invocations + 1, diags⟩
          else
            work env maxTries fuel n (invocations + 1)
              (diags ++ [.retryErr .ATTEMPT_PREDICATE_FAILED])
        | none => ⟨.success v, invocations + 1, diags⟩

/-- How the cancellation signal behaves relative to this `retry` call.
`retry` subscribes with `addEventListener("abort", ...)`, which only fires
on an abort event raised after the subscription: a signal that is already
aborted when `retry` is called never invokes the listener, so its race
branch never settles. -/
inductive SignalModel where
  | noSignal
  | neverFires
  | preAborted
  | firesBeforeSettle
  | firesAfterSettle
deriving DecidableEq, Repr

/-- Did the abort race branch settle first?  Only when the abort event
fires after subscription and before the `work` chain settles. -/
def abortWinsRace : SignalModel → Bool
  | .firesBeforeSettle => true
  | _ => false

/-- `retry` from `src/retry.ts`: race the `work` loop against the abort
listener; if the abort branch wins, throw `RETRY_IS_ABORTED`, otherwise
return `work`'s resolution.  The `work` chain itself is never cancelled
(its timers keep running), so its invocation count and diagnostics are
unchanged by an abort. -/
def retry (env : RetryEnv T) (maxTriesOption : Option Nat) (signal : SignalModel) :
    WorkResult T :=
  let maxTries := effectiveMaxTries maxTriesOption
  let w := work env maxTries (maxTries + 1) 0 0 []
  if abortWinsRace signal then ⟨.failure .RETRY_IS_ABORTED, w.invocations, w.diags⟩
  else w

/-- One attempt fails: the operation times out, rejects, or resolves to a
value the configured predicate refuses. -/
def attemptFails (env : RetryEnv T) (n : Nat) : Prop :=
  match env.attempt n with
  | .hangs => True
  | .rejects => True
  | .resolves v =>
    match env.predicate with
    | some p => p v = false
    | none => False

/-- Every attempt fails. -/
def alwaysFails (env : RetryEnv T) : Prop := ∀ n, attemptFails env n

/-! ## Concrete instances used to evaluate the claims -/

/-- Is the result a thrown `RangeError`? -/
def isRangeErr {α : Type} : Except CookieError α → Bool
  | .error (.rangeErr _) => true
  | _ => false

/-- A segment of a serialized cookie that the `Set-Cookie` parser recovers
verbatim: it contains no `;` and neither starts nor ends with whitespace
(so splitting on `;` and trimming give it back). -/
def GoodSeg (s : Str) : Prop :=
  (∀ ch ∈ s, ch ≠ ';') ∧
  (s.head?.all fun ch => !isJsWS ch) = true ∧
  (s.getLast?.all fun ch => !isJsWS ch) = true

/-- An operation that always rejects. -/
def envRejects : RetryEnv Unit :=
  { attempt := fun _ => .rejects, predicate := none }

/-- An operation that never settles before the per-attempt timer. -/
def envHangs : RetryEnv Unit :=
  { attempt := fun _ => .hangs, predicate := none }

/-- A jar holding one cookie as ingestion would store it from
`Set-Cookie: id=42` received over `https://example.com/`. -/
def jarStored : Jar :=
  [{ name := str "id", value := str "42",
     domain := some (str "example.com"), path := some (str "/") }]

/-- The matching request URL `https://example.com/`. -/
def urlExample : URLModel :=
  { protocol := str "https:", hostname := str "example.com", pathname := str "/" }

/-- A response from `https://example.com/a/b` carrying
`Set-Cookie: id=42` (no `Path` attribute). -/
def respNoPath : ResponseModel :=
  { url := { protocol := str "https:", hostname := str "example.com",
             pathname := str "/a/b" },
    setCookieHeaders := [str "id=42"] }

/-- A cookie whose `maxAge` is the negative non-integer -3/2. -/
def cookieNegHalf : Cookie :=
  { name := str "a", value := str "b", maxAge := some (.num (mkRat (-3) 2)) }

/-- A cookie whose `maxAge` is the negative integer -5. -/
def cookieNegFive : Cookie :=
  { name := str "a", value := str "b", maxAge := some (.num (-5)) }

/-- A serializable cookie whose domain carries a leading dot. -/
def cookieDotDomain : Cookie :=
  { name := str "a", value := str "b", domain := some (str ".example.com") }

/-- A fully populated serializable cookie without reserved-prefix name. -/
def cookieRich : Cookie :=
  { name := str "sid", value := str "x=1",
    domain := some (str "sub.example.com"), path := some (str "/app"),
    secure := true, httpOnly := true, sameSite := some (str "Lax"),
    maxAge := some (.num 30) }

/-- A `__Host`-prefixed cookie with an explicit domain and path. -/
def cookieHost : Cookie :=
  { name := str "__Host-id", value := str "v",
    domain := some (str "example.com"), path := some (str "/x") }

/-! ## Theorems: retry engine -/

/-- If every attempt fails, the `work` loop with enough fuel ends in
`MAX_RETRIES_REACHED` and invokes the operation once for each remaining
attempt up to the ceiling. -/
theorem work_allFail {T : Type} (env : RetryEnv T) (mt : Nat) (hf : alwaysFails env) :
    ∀ fuel k inv dg, mt - k < fuel →
      (work env mt fuel k inv dg).outcome = .failure .MAX_RETRIES_REACHED ∧
      (work env mt fuel k inv dg).invocations = inv + (mt - k) := by
  intro fuel
  induction fuel with
  | zero => intro k inv dg h; omega
  | succ f ih =>
    intro k inv dg h
    by_cases hk : mt < k + 1
    · simp only [work, if_pos hk]
      refine ⟨trivial, ?_⟩
      show inv = inv + (mt - k)
      omega
    · simp only [work, if_neg hk]
      cases hA : env.attempt (k + 1) with
      | resolves v =>
        have hfk := hf (k + 1)
        unfold attemptFails at hfk
        rw [hA] at hfk
        cases hp : env.predicate with
        | none => rw [hp] at hfk; exact hfk.elim
        | some p =>
          rw [hp] at hfk
          simp only [hfk, Bool.false_eq_true, if_false]
          have hrec := ih (k + 1) (inv + 1)
            (dg ++ [.retryErr .ATTEMPT_PREDICATE_FAILED]) (by omega)
          exact ⟨hrec.1, by rw [hrec.2]; omega⟩
      | rejects =>
        have hrec := ih (k + 1) (inv + 1) (dg ++ [.opError]) (by omega)
        exact ⟨hrec.1, by rw [hrec.2]; omega⟩
      | hangs =>
        have hrec := ih (k + 1) (inv + 1)
          (dg ++ [.retryErr .ATTEMPT_TIMEOUT_REACHED]) (by omega)
        exact ⟨hrec.1, by rw [hrec.2]; omega⟩

/-- The only failure the `work` loop itself can settle with is
`MAX_RETRIES_REACHED`: timeout and predicate failures are caught and only
drive the next attempt. -/
theorem work_failure_kind {T : Type} (env : RetryEnv T) (mt : Nat) :
    ∀ fuel k inv dg e, (work env mt fuel k inv dg).outcome = .failure e →
      e = .MAX_RETRIES_REACHED := by
  intro fuel
  induction fuel with
  | zero =>
    intro k inv dg e h
    simp only [work] at h
    exact (RetryOutcome.failure.injEq _ _).mp h.symm
  | succ f ih =>
    intro k inv dg e h
    by_cases hk : mt < k + 1
    · simp only [work, if_pos hk] at h
      exact (RetryOutcome.failure.injEq _ _).mp h.symm
    · simp only [work, if_neg hk] at h
      cases hA : env.attempt (k + 1) with
      | resolves v =>
        rw [hA] at h
        cases hp : env.predicate with
        | none => rw [hp] at h; simp at h
        | some p =>
          rw [hp] at h
          by_cases hpv : p v = true
          · simp only [hpv, if_true] at h; simp at h
          · simp only [Bool.not_eq_true] at hpv
            simp only [hpv, Bool.false_eq_true, if_false] at h
            exact ih _ _ _ _ h
      | rejects => rw [hA] at h; exact ih _ _ _ _ h
      | hangs => rw [hA] at h; exact ih _ _ _ _ h

/-- Claim C6: for an operation failing on every attempt, `retry` with
`maxTries = m` (a positive try count) invokes the operation exactly `m`
times and terminates with the `MAX_RETRIES_REACHED` failure; there is no
`(m+1)`-th invocation. -/
theorem retry_allFail_exactly_maxTries {T : Type} (env : RetryEnv T) (m : Nat)
    (hm : 0 < m) (hf : alwaysFails env) :
    (retry env (some m) .noSignal).outcome = .failure .MAX_RETRIES_REACHED ∧
    (retry env (some m) .noSignal).invocations = m := by
  obtain ⟨k, rfl⟩ : ∃ k, m = k + 1 := ⟨m - 1, by omega⟩
  have hmt : effectiveMaxTries (some (k + 1)) = k + 1 := rfl
  have hw := work_allFail env (k + 1) hf (k + 2) 0 0 [] (by omega)
  simp only [retry, hmt, abortWinsRace, Bool.false_eq_true, if_false]
  exact ⟨hw.1, by rw [hw.2]; omega⟩

/-- Witness for C6 at `maxTries = 3` with an always-rejecting operation. -/
theorem retry_allFail_exactly_maxTries_witness :
    (retry envRejects (some 3) .noSignal).outcome = .failure .MAX_RETRIES_REACHED ∧
    (retry envRejects (some 3) .noSignal).invocations = 3 :=
  retry_allFail_exactly_maxTries envRejects 3 (by decide) (fun _ => trivial)

/-- Claim C7: whatever the operation, options and signal, a failing `retry`
call only ever surfaces `MAX_RETRIES_REACHED` or `RETRY_IS_ABORTED`;
`ATTEMPT_TIMEOUT_REACHED` and `ATTEMPT_PREDICATE_FAILED` are never the
final result (they are reported only through the `onAttemptFailed`
diagnostics, modelled by the `diags` component). -/
theorem retry_final_failure_kinds {T : Type} (env : RetryEnv T) (o : Option Nat)
    (sig : SignalModel) (e : RetryErrorKind)
    (h : (retry env o sig).outcome = .failure e) :
    e = .MAX_RETRIES_REACHED ∨ e = .RETRY_IS_ABORTED := by
  unfold retry at h
  cases hab : abortWinsRace sig with
  | true =>
    rw [hab] at h
    simp only [if_true] at h
    right
    exact (RetryOutcome.failure.injEq _ _).mp h.symm
  | false =>
    rw [hab] at h
    simp only [Bool.false_eq_true, if_false] at h
    left
    exact work_failure_kind env _ _ _ _ _ _ h

/-- Witness for C7: an always-rejecting operation with `maxTries = 1`
fails, and its discriminator is one of the two terminal ones. -/
theorem retry_final_failure_kinds_witness :
    RetryErrorKind.MAX_RETRIES_REACHED = .MAX_RETRIES_REACHED ∨
    RetryErrorKind.MAX_RETRIES_REACHED = .RETRY_IS_ABORTED :=
  retry_final_failure_kinds envRejects (some 1) .noSignal .MAX_RETRIES_REACHED (by decide)

/-- Counterexample to C8 as stated: a signal that is already aborted when
`retry` is called never fires the freshly added `abort` listener, so with a
never-settling operation and `maxTries = 1` the call ends in
`MAX_RETRIES_REACHED`, not `RETRY_IS_ABORTED`. -/
theorem retry_preAborted_not_aborted :
    (retry envHangs (some 1) .preAborted).outcome = .failure .MAX_RETRIES_REACHED ∧
    (RetryOutcome.failure (T := Unit) .MAX_RETRIES_REACHED ≠
      .failure .RETRY_IS_ABORTED) := by
  decide

/-- Claim C8 (amended): whenever the signal's abort event fires after
`retry` has subscribed its listener and before the work loop settles, the
call terminates with the `RETRY_IS_ABORTED` failure, whatever the
operation and `maxTries`. -/
theorem retry_abort_event_wins {T : Type} (env : RetryEnv T) (o : Option Nat) :
    (retry env o .firesBeforeSettle).outcome = .failure .RETRY_IS_ABORTED := rfl

/-- Claim C9: a falsy `maxTries` (`0`, or absent) falls back to the default
ceiling of 5, so an always-failing operation is attempted 5 times before
`MAX_RETRIES_REACHED` is produced. -/
theorem retry_falsy_maxTries_defaults_five {T : Type} (env : RetryEnv T)
    (hf : alwaysFails env) :
    ((retry env (some 0) .noSignal).outcome = .failure .MAX_RETRIES_REACHED ∧
      (retry env (some 0) .noSignal).invocations = 5) ∧
    ((retry env none .noSignal).outcome = .failure .MAX_RETRIES_REACHED ∧
      (retry env none .noSignal).invocations = 5) := by
  have hw := work_allFail env 5 hf 6 0 0 [] (by omega)
  constructor <;>
    · simp only [retry, effectiveMaxTries, abortWinsRace, Bool.false_eq_true, if_false]
      exact ⟨hw.1, by rw [hw.2]⟩

/-- Witness for C9 at `maxTries = 0` and `maxTries` absent with an
always-rejecting operation. -/
theorem retry_falsy_maxTries_defaults_five_witness :
    ((retry envRejects (some 0) .noSignal).outcome = .failure .MAX_RETRIES_REACHED ∧
      (retry envRejects (some 0) .noSignal).invocations = 5) ∧
    ((retry envRejects none .noSignal).outcome = .failure .MAX_RETRIES_REACHED ∧
      (retry envRejects none .noSignal).invocations = 5) :=
  retry_falsy_maxTries_defaults_five envRejects (fun _ => trivial)

/-! ## Theorems: cookie jar -/

/-- Claim C1 (code bug): the jar's retrieval serializes each matching
cookie with the `Set-Cookie` serializer, so the returned element for a
stored `id=42` cookie is `"id=42; Domain=example.com; Path=/"` — carrying
`Domain` and `Path` attributes — not the bare pair `"id=42"` the
specification promises for a `Cookie` request header. -/
theorem jar_getCookies_serializes_attributes :
    CookieJar.getCookies 0 urlExample jarStored =
      .ok [str "id=42; Domain=example.com; Path=/"] ∧
    str "id=42; Domain=example.com; Path=/" ≠ str "id=42" := by
  decide

/-- Claim C2 (code bug): ingesting `Set-Cookie: id=42` (no `Path`
attribute) from a response at `https://example.com/a/b` stores the full
request path `"/a/b"` as the cookie path, not the RFC 6265 default
directory `"/a"` (or `"/a/"`) that the code's own comment cites. -/
theorem jar_setCookie_defaults_full_pathname :
    (CookieJar.setCookie 0 respNoPath []).map Cookie.path = [some (str "/a/b")] ∧
    str "/a/b" ≠ str "/a" ∧ str "/a/b" ≠ str "/a/" := by
  decide

/-- Claim C3 (code bug): the client `Cookie` header parser never raises the
`Cookie cannot start with =` syntax error — `split` always yields at least
one piece, so the `undefined` guard is unreachable — and a segment starting
with `=` is instead recorded under the empty key. -/
theorem getCookies_accepts_leading_eq :
    getCookies (some (str "=value")) = .ok [(str "", str "value")] := by
  decide

/-! ## Theorems: cookie serialization (mutation and Max-Age errors) -/

/-- A name with the `__Secure` prefix cannot also have the `__Host`
prefix (they differ at the third character). -/
theorem secure_not_host (n : Str) (h : (str "__Secure").isPrefixOf n = true) :
    (str "__Host").isPrefixOf n = false := by
  have e1 : str "__Secure" = '_' :: '_' :: 'S' :: str "ecure" := rfl
  have e2 : str "__Host" = '_' :: '_' :: 'H' :: str "ost" := rfl
  rw [e1] at h
  rw [e2]
  match n with
  | [] => simp [List.isPrefixOf] at h
  | [c1] => simp [List.isPrefixOf] at h
  | [c1, c2] => simp [List.isPrefixOf] at h
  | c1 :: c2 :: c3 :: rest =>
    simp only [List.isPrefixOf, Bool.and_eq_true, beq_iff_eq] at h
    obtain ⟨-, -, h3, -⟩ := h
    subst h3
    simp only [List.isPrefixOf]
    rw [show ('H' == 'S') = false from rfl]
    simp

/-- A name with the `__Host` prefix cannot also have the `__Secure`
prefix. -/
theorem host_not_secure (n : Str) (h : (str "__Host").isPrefixOf n = true) :
    (str "__Secure").isPrefixOf n = false := by
  have e1 : str "__Host" = '_' :: '_' :: 'H' :: str "ost" := rfl
  have e2 : str "__Secure" = '_' :: '_' :: 'S' :: str "ecure" := rfl
  rw [e1] at h
  rw [e2]
  match n with
  | [] => simp [List.isPrefixOf] at h
  | [c1] => simp [List.isPrefixOf] at h
  | [c1, c2] => simp [List.isPrefixOf] at h
  | c1 :: c2 :: c3 :: rest =>
    simp only [List.isPrefixOf, Bool.and_eq_true, beq_iff_eq] at h
    obtain ⟨-, -, h3, -⟩ := h
    subst h3
    simp only [List.isPrefixOf]
    rw [show ('S' == 'H') = false from rfl]
    simp

/-- After successful name/value validation, the record state left behind by
`cookieToString` is exactly the reserved-prefix mutation. -/
theorem cookieToStringMut_eq (c : Cookie)
    (hn : c.name ≠ []) (hvn : validateName c.name = .ok ())
    (hvv : validateValue c.name c.value = .ok ()) :
    cookieToStringMut c = mutateReserved c := by
  unfold cookieToStringMut cookieToStringFull
  rw [if_neg hn, hvn, hvv]

/-- Claim C10: with a serializable name and value, `cookieToString` mutates
its input record exactly on reserved prefixes — a `__Secure`-prefixed name
sets the input's `secure` to true; a `__Host`-prefixed name additionally
sets the input's `path` to `"/"` and deletes the `domain`; every other
field (and any cookie with neither prefix) is left unchanged. -/
theorem cookieToString_mutates_input (c : Cookie)
    (hn : c.name ≠ []) (hvn : validateName c.name = .ok ())
    (hvv : validateValue c.name c.value = .ok ()) :
    ((str "__Secure").isPrefixOf c.name = true →
      cookieToStringMut c = { c with secure := true }) ∧
    ((str "__Host").isPrefixOf c.name = true →
      cookieToStringMut c =
        { c with secure := true, path := some (str "/"), domain := none }) ∧
    ((str "__Secure").isPrefixOf c.name = false →
      (str "__Host").isPrefixOf c.name = false →
      cookieToStringMut c = c) := by
  rw [cookieToStringMut_eq c hn hvn hvv]
  refine ⟨?_, ?_, ?_⟩
  · intro hs
    have hh : (str "__Host").isPrefixOf c.name = false := secure_not_host c.name hs
    simp [mutateReserved, hs, hh]
  · intro hh
    have hs : (str "__Secure").isPrefixOf c.name = false := host_not_secure c.name hh
    simp [mutateReserved, hs, hh]
  · intro hs hh
    simp [mutateReserved, hs, hh]

/-- Witness for C10 at a concrete `__Host`-prefixed cookie: serializing it
rewrites the caller's record. -/
theorem cookieToString_mutates_input_witness :
    cookieToStringMut cookieHost =
      { cookieHost with secure := true, path := some (str "/"), domain := none } :=
  (cookieToString_mutates_input cookieHost (by decide) (by decide) (by decide)).2.1
    (by decide)

/-- `validatePath` throws only syntax errors. -/
theorem validatePath_err (p : Str) :
    ∀ e, validatePath p = .error e → ∃ m, e = .syntaxErr m := by
  induction p with
  | nil => intro e h; simp [validatePath] at h
  | cons c rest ih =>
    intro e h
    unfold validatePath at h
    by_cases hc : (c.toNat < 0x20 || c.toNat > 0x7e || c = ';') = true
    · rw [if_pos hc] at h
      injection h with h2
      exact ⟨_, h2.symm⟩
    · rw [if_neg hc] at h
      exact ih e h

/-- `validateDomain` throws only syntax errors. -/
theorem validateDomain_err (d : Str) :
    ∀ e, validateDomain d = .error e → ∃ m, e = .syntaxErr m := by
  intro e h
  unfold validateDomain at h
  by_cases hc : (d.head? = some '-' || d.getLast? = some '.' || d.getLast? = some '-') = true
  · rw [if_pos hc] at h
    injection h with h2
    exact ⟨_, h2.symm⟩
  · rw [if_neg hc] at h
    exact absurd h (by simp)

/-- The `Domain` step throws only syntax errors. -/
theorem segDomain_err (c : Cookie) (out : List Str) :
    ∀ e, segDomain c out = .error e → ∃ m, e = .syntaxErr m := by
  intro e h
  unfold segDomain at h
  by_cases hs : strTruthy c.domain = true
  · rw [if_pos hs] at h
    cases hd : validateDomain (c.domain.getD []) with
    | error e2 =>
      rw [hd] at h
      injection h with h2
      exact validateDomain_err _ _ hd |>.imp fun m hm => by rw [← h2, hm]
    | ok u => rw [hd] at h; exact absurd h (by simp)
  · rw [if_neg hs] at h
    exact absurd h (by simp)

/-- The `Path` step throws only syntax errors. -/
theorem segPath_err (c : Cookie) (out : List Str) :
    ∀ e, segPath c out = .error e → ∃ m, e = .syntaxErr m := by
  intro e h
  unfold segPath at h
  by_cases hs : strTruthy c.path = true
  · rw [if_pos hs] at h
    cases hp : validatePath (c.path.getD []) with
    | error e2 =>
      rw [hp] at h
      injection h with h2
      exact validatePath_err _ _ hp |>.imp fun m hm => by rw [← h2, hm]
    | ok u => rw [hp] at h; exact absurd h (by simp)
  · rw [if_neg hs] at h
    exact absurd h (by simp)

/-- Nothing after the `Max-Age` step of `cookieToString` can throw a
`RangeError`. -/
theorem serializeTail_not_range (c : Cookie) (out : List Str) :
    isRangeErr (serializeTail c out) = false := by
  have h2 : ∀ out2, isRangeErr (serializeTail2 c out2) = false := by
    intro out2
    unfold serializeTail2
    cases hp : segPath c (segSameSite c out2) with
    | error e =>
      obtain ⟨m, rfl⟩ := segPath_err c _ e hp
      rfl
    | ok out3 => rfl
  unfold serializeTail
  cases hd : segDomain c out with
  | error e =>
    obtain ⟨m, rfl⟩ := segDomain_err c out e hd
    rfl
  | ok out2 => exact h2 out2

/-- `serializeSegs` throws a `RangeError` exactly when `maxAge` is an
integer below zero. -/
theorem serializeSegs_rangeErr_iff (c : Cookie) :
    isRangeErr (serializeSegs c) = true ↔
      (optIsInteger c.maxAge = true ∧ optLtZero c.maxAge = true) := by
  unfold serializeSegs
  by_cases h1 : optIsInteger c.maxAge = true
  · by_cases h2 : optLtZero c.maxAge = true
    · simp only [segMaxAge, if_pos h1, if_pos h2]
      simp [isRangeErr, h1, h2]
    · simp only [segMaxAge, if_pos h1, if_neg h2]
      rw [serializeTail_not_range]
      simp [h2]
  · simp only [segMaxAge, if_neg h1]
    rw [serializeTail_not_range]
    simp [h1]

/-- The reserved-prefix mutation never changes `maxAge`. -/
theorem mutateReserved_maxAge (c : Cookie) :
    (mutateReserved c).maxAge = c.maxAge := by
  simp only [mutateReserved]
  by_cases h1 : (str "__Secure").isPrefixOf c.name = true
  · rw [if_pos h1]
    by_cases h2 :
        (str "__Host").isPrefixOf ({ c with secure := true } : Cookie).name = true
    · rw [if_pos h2]
    · rw [if_neg h2]
  · rw [if_neg h1]
    by_cases h2 : (str "__Host").isPrefixOf c.name = true
    · rw [if_pos h2]
    · rw [if_neg h2]

/-- `fieldContentOk` implies the name is non-empty. -/
theorem fieldContentOk_ne_nil (s : Str) (h : fieldContentOk s = true) : s ≠ [] := by
  unfold fieldContentOk at h
  simp only [Bool.and_eq_true, decide_eq_true_eq] at h
  exact h.1

/-- A name passing the regexp passes `validateName`. -/
theorem validateName_ok_of_fieldContentOk (s : Str) (h : fieldContentOk s = true) :
    validateName s = .ok () := by
  unfold validateName
  rw [if_neg]
  simp [h]

/-- Claim C4 (amended): for a cookie whose name matches the field-content
regexp and whose value passes validation, serialization throws a
`RangeError` exactly when `maxAge` holds a negative integer; any other
`maxAge` value — in particular a negative or positive non-integer — is
silently omitted from the output rather than raising an error. -/
theorem cookieToString_rangeErr_iff (c : Cookie)
    (hn : fieldContentOk c.name = true)
    (hvv : validateValue c.name c.value = .ok ()) :
    isRangeErr (cookieToStringE c) = true ↔
      (optIsInteger c.maxAge = true ∧ optLtZero c.maxAge = true) := by
  have hne : c.name ≠ [] := fieldContentOk_ne_nil c.name hn
  have hvn : validateName c.name = .ok () := validateName_ok_of_fieldContentOk c.name hn
  have hF : cookieToStringE c =
      (match serializeSegs (mutateReserved c) with
       | .error e => .error e
       | .ok out => .ok (joinSep (str "; ") out)) := by
    unfold cookieToStringE cookieToStringFull
    rw [if_neg hne, hvn, hvv]
  have hE : isRangeErr (cookieToStringE c) =
      isRangeErr (serializeSegs (mutateReserved c)) := by
    rw [hF]
    cases serializeSegs (mutateReserved c) with
    | error e => cases e <;> rfl
    | ok out => rfl
  rw [hE, serializeSegs_rangeErr_iff, mutateReserved_maxAge]

/-- Witness for C4 at the negative integer `maxAge = -5`: the `RangeError`
branch is taken. -/
theorem cookieToString_rangeErr_iff_witness :
    isRangeErr (cookieToStringE cookieNegFive) = true :=
  (cookieToString_rangeErr_iff cookieNegFive (by decide) (by decide)).mpr
    (by constructor <;> decide)

/-- Counterexample to C4 as stated: `maxAge = -3/2` is negative, yet
serialization succeeds with the `Max-Age` silently dropped — no
`RangeError`, no validation error. -/
theorem cookieToString_negHalf_no_error :
    JsNum.ltZero (.num (mkRat (-3) 2)) = true ∧
    cookieToStringE cookieNegHalf = .ok (str "a=b") ∧
    isRangeErr (cookieToStringE cookieNegHalf) = false := by
  refine ⟨by decide, by decide, by decide⟩

/-! ## Theorems: string lemmas for the serialize/parse round trip -/

/-- `split` never returns an empty array. -/
theorem splitOnChar_ne_nil (sep : Char) (s : Str) : splitOnChar sep s ≠ [] := by
  induction s with
  | nil => simp [splitOnChar]
  | cons c rest ih =>
    unfold splitOnChar
    by_cases hc : c = sep
    · simp [hc]
    · rw [if_neg hc]
      cases h : splitOnChar sep rest with
      | nil => simp
      | cons x t => simp

/-- Splitting a separator-free string gives it back whole. -/
theorem splitOnChar_no_sep (sep : Char) (s : Str) (h : ∀ ch ∈ s, ch ≠ sep) :
    splitOnChar sep s = [s] := by
  induction s with
  | nil => rfl
  | cons c rest ih =>
    have hc : c ≠ sep := h c (by simp)
    have hr : splitOnChar sep rest = [rest] :=
      ih fun ch hch => h ch (by simp [hch])
    unfold splitOnChar
    rw [if_neg hc, hr]

/-- Splitting peels off a separator-free piece before the first
separator. -/
theorem splitOnChar_append (sep : Char) (a rest : Str) (h : ∀ ch ∈ a, ch ≠ sep) :
    splitOnChar sep (a ++ sep :: rest) = a :: splitOnChar sep rest := by
  induction a with
  | nil =>
    show splitOnChar sep (sep :: rest) = [] :: splitOnChar sep rest
    conv_lhs => rw [splitOnChar]
    rw [if_pos rfl]
  | cons c a2 ih =>
    have hc : c ≠ sep := h c (by simp)
    have hr := ih fun ch hch => h ch (by simp [hch])
    show splitOnChar sep (c :: (a2 ++ sep :: rest)) = (c :: a2) :: splitOnChar sep rest
    conv_lhs => rw [splitOnChar]
    rw [if_neg hc, hr]

/-- Re-joining a split with the same separator restores the string. -/
theorem joinSep_splitOnChar (sep : Char) (s : Str) :
    joinSep [sep] (splitOnChar sep s) = s := by
  induction s with
  | nil => rfl
  | cons c rest ih =>
    unfold splitOnChar
    by_cases hc : c = sep
    · rw [if_pos hc]
      cases h : splitOnChar sep rest with
      | nil => exact absurd h (splitOnChar_ne_nil sep rest)
      | cons x t =>
        rw [h] at ih
        show joinSep [sep] ([] :: x :: t) = c :: rest
        show [] ++ [sep] ++ joinSep [sep] (x :: t) = c :: rest
        rw [ih, hc]
        rfl
    · rw [if_neg hc]
      cases h : splitOnChar sep rest with
      | nil => exact absurd h (splitOnChar_ne_nil sep rest)
      | cons x t =>
        rw [h] at ih
        show joinSep [sep] ((c :: x) :: t) = c :: rest
        cases t with
        | nil =>
          show c :: x = c :: rest
          exact congrArg (fun z => c :: z) ih
        | cons y t2 =>
          show (c :: x) ++ [sep] ++ joinSep [sep] (y :: t2) = c :: rest
          rw [← ih]
          rfl

/-- `dropWhile` is the identity when the first character fails the
predicate. -/
theorem dropWhile_head_false (p : Char → Bool) (s : Str)
    (h : ∀ ch, s.head? = some ch → p ch = false) : s.dropWhile p = s := by
  cases s with
  | nil => rfl
  | cons c rest =>
    have hc := h c rfl
    simp [List.dropWhile, hc]

/-- `trim` is the identity on a string with no whitespace at either end. -/
theorem jsTrim_eq_self (s : Str)
    (h1 : ∀ ch, s.head? = some ch → isJsWS ch = false)
    (h2 : ∀ ch, s.getLast? = some ch → isJsWS ch = false) :
    jsTrim s = s := by
  unfold jsTrim
  rw [dropWhile_head_false isJsWS s h1]
  rw [dropWhile_head_false isJsWS s.reverse
    (fun ch hch => h2 ch (by rwa [List.head?_reverse] at hch))]
  exact List.reverse_reverse s

/-- `trim` absorbs one leading space. -/
theorem jsTrim_cons_space (s : Str) : jsTrim (' ' :: s) = jsTrim s := by
  have h : (' ' :: s).dropWhile isJsWS = s.dropWhile isJsWS := rfl
  unfold jsTrim
  rw [h]

/-- Head of an append with a non-empty left part. -/
theorem head?_append_ne_nil (a b : Str) (h : a ≠ []) :
    (a ++ b).head? = a.head? := by
  cases a with
  | nil => exact absurd rfl h
  | cons c t => rfl

/-- Last element of an append with a non-empty right part. -/
theorem getLast?_append_ne_nil (a b : Str) (h : b ≠ []) :
    (a ++ b).getLast? = b.getLast? := by
  rw [← List.head?_reverse, List.reverse_append,
    head?_append_ne_nil _ _ (by simpa using h), List.head?_reverse]

/-- Last element of a cons with a non-empty tail. -/
theorem getLast?_cons_ne_nil (c : Char) (s : Str) (h : s ≠ []) :
    (c :: s).getLast? = s.getLast? :=
  getLast?_append_ne_nil [c] s h

/-- A segment with no `=` parses as a bare key with empty value. -/
theorem splitFirstEq_no_eq (s : Str) (h : ∀ ch ∈ s, ch ≠ '=') :
    splitFirstEq s = (s, []) := by
  unfold splitFirstEq
  rw [splitOnChar_no_sep '=' s h]
  rfl

/-- A segment `key=value` with an `=`-free key parses into that key and
value (later `=` signs are re-joined into the value). -/
theorem splitFirstEq_keyval (k v : Str) (h : ∀ ch ∈ k, ch ≠ '=') :
    splitFirstEq (k ++ '=' :: v) = (k, v) := by
  unfold splitFirstEq
  rw [splitOnChar_append '=' k v h]
  show (k, joinSep ['='] (splitOnChar '=' v)) = (k, v)
  rw [joinSep_splitOnChar]

/-- Splitting the `"; "`-joined segment list on `;` recovers the first
segment and the rest with one leading space each. -/
theorem splitOnChar_semi_joinSegs :
    ∀ (segs : List Str) (a : Str), (∀ ch ∈ a, ch ≠ ';') →
      (∀ s ∈ segs, ∀ ch ∈ s, ch ≠ ';') →
      splitOnChar ';' (joinSep (str "; ") (a :: segs)) =
        a :: segs.map (fun s => ' ' :: s) := by
  intro segs
  induction segs with
  | nil =>
    intro a ha _
    exact splitOnChar_no_sep ';' a ha
  | cons b t ih =>
    intro a ha hs
    have hb : ∀ ch ∈ b, ch ≠ ';' := hs b (by simp)
    have ht : ∀ s ∈ t, ∀ ch ∈ s, ch ≠ ';' := fun s hsm => hs s (by simp [hsm])
    have hJ := ih b hb ht
    show splitOnChar ';' (a ++ str "; " ++ joinSep (str "; ") (b :: t)) = _
    rw [List.append_assoc]
    rw [show str "; " ++ joinSep (str "; ") (b :: t) =
      ';' :: ' ' :: joinSep (str "; ") (b :: t) from rfl]
    rw [splitOnChar_append ';' a _ ha]
    have hstep : splitOnChar ';' (' ' :: joinSep (str "; ") (b :: t)) =
        (' ' :: b) :: t.map (fun s => ' ' :: s) := by
      unfold splitOnChar
      rw [if_neg (by decide : ¬(' ' = ';')), hJ]
    rw [hstep]
    rfl

/-- `applyAttrs` over a concatenation runs the two halves in sequence. -/
theorem applyAttrs_append (c : Cookie) (l1 l2 : List (Str × Str)) :
    applyAttrs c (l1 ++ l2) =
      match applyAttrs c l1 with
      | none => none
      | some c2 => applyAttrs c2 l2 := by
  induction l1 generalizing c with
  | nil => rfl
  | cons kv t ih =>
    have hL : applyAttrs c (kv :: (t ++ l2)) =
        match applyAttr c kv with
        | none => none
        | some c2 => applyAttrs c2 (t ++ l2) := rfl
    have hR : applyAttrs c (kv :: t) =
        match applyAttr c kv with
        | none => none
        | some c2 => applyAttrs c2 t := rfl
    show applyAttrs c (kv :: (t ++ l2)) = _
    rw [hL, hR]
    cases applyAttr c kv with
    | none => rfl
    | some c2 => exact ih c2

/-- Processing one optional attribute chunk before the remaining
attributes. -/
theorem applyAttrs_chunk (c upd : Cookie) (b : Bool) (kv : Str × Str)
    (rest : List (Str × Str)) (h : applyAttr c kv = some upd) :
    applyAttrs c ((if b then [kv] else []) ++ rest) =
      applyAttrs (if b then upd else c) rest := by
  cases b with
  | false => rfl
  | true =>
    show applyAttrs c (kv :: rest) = applyAttrs upd rest
    have hL : applyAttrs c (kv :: rest) =
        match applyAttr c kv with
        | none => none
        | some c2 => applyAttrs c2 rest := rfl
    rw [hL, h]

/-! ## Theorems: digit strings and character classes -/

/-- Bounds and code of the digit character. -/
theorem digitChar_facts (k : Nat) (h : k < 10) :
    (('0' ≤ digitChar k && digitChar k ≤ '9') = true) ∧ (digitChar k).toNat = 48 + k := by
  interval_cases k <;> exact ⟨by decide, by decide⟩

/-- The digit expansion: every character is a decimal digit (both as the
boolean test and as a code bound), the result is non-empty, and its value
is the original number. -/
theorem natDigitsAux_spec :
    ∀ fuel n, n < fuel →
      (∀ ch ∈ natDigitsAux fuel n,
        (('0' ≤ ch && ch ≤ '9') = true) ∧ 48 ≤ ch.toNat ∧ ch.toNat ≤ 57) ∧
      natDigitsAux fuel n ≠ [] ∧
      digitsVal (natDigitsAux fuel n) = n := by
  intro fuel
  induction fuel with
  | zero => intro n h; omega
  | succ f ih =>
    intro n h
    by_cases h10 : n < 10
    · simp only [natDigitsAux]
      rw [if_pos h10]
      obtain ⟨hb, hcode⟩ := digitChar_facts n h10
      refine ⟨?_, by simp, ?_⟩
      · intro ch hch
        rw [List.mem_singleton] at hch
        subst hch
        exact ⟨hb, by omega, by omega⟩
      · show 0 * 10 + ((digitChar n).toNat - 48) = n
        omega
    · simp only [natDigitsAux]
      rw [if_neg h10]
      have hd : n / 10 < f := by
        have h2 : n / 10 < n := Nat.div_lt_self (by omega) (by omega)
        omega
      obtain ⟨ihc, ihne, ihval⟩ := ih (n / 10) hd
      have hm : n % 10 < 10 := Nat.mod_lt _ (by omega)
      obtain ⟨hb, hcode⟩ := digitChar_facts (n % 10) hm
      refine ⟨?_, by simp, ?_⟩
      · intro ch hch
        rw [List.mem_append, List.mem_singleton] at hch
        rcases hch with hch | hch
        · exact ihc ch hch
        · subst hch
          exact ⟨hb, by omega, by omega⟩
      · unfold digitsVal
        rw [List.foldl_append]
        show digitsVal (natDigitsAux f (n / 10)) * 10 + ((digitChar (n % 10)).toNat - 48) = n
        rw [ihval]
        omega

/-- Digit-string facts at the standard fuel. -/
theorem natDigits_spec (n : Nat) :
    (∀ ch ∈ natDigits n,
      (('0' ≤ ch && ch ≤ '9') = true) ∧ 48 ≤ ch.toNat ∧ ch.toNat ≤ 57) ∧
    natDigits n ≠ [] ∧
    digitsVal (natDigits n) = n :=
  natDigitsAux_spec (n + 1) n (by omega)

/-- Distinct codes give distinct characters. -/
theorem ne_char_of_toNat (ch c2 : Char) (h : ch.toNat ≠ c2.toNat) : ch ≠ c2 :=
  fun he => h (by rw [he])

/-- A character whose code lies in `0x21..0x80` is not JS whitespace. -/
theorem not_ws_of_toNat (ch : Char) (h1 : 0x21 ≤ ch.toNat) (h2 : ch.toNat ≤ 0x80) :
    isJsWS ch = false := by
  have key : ∀ c2 : Char, ch.toNat ≠ c2.toNat → decide (ch = c2) = false := by
    intro c2 hn
    rw [decide_eq_false_iff_not]
    exact ne_char_of_toNat ch c2 hn
  unfold isJsWS
  rw [key ' ' (by have e : (' ' : Char).toNat = 32 := rfl; omega)]
  rw [key '\t' (by have e : ('\t' : Char).toNat = 9 := rfl; omega)]
  rw [key '\n' (by have e : ('\n' : Char).toNat = 10 := rfl; omega)]
  rw [key '\x0b' (by have e : ('\x0b' : Char).toNat = 11 := rfl; omega)]
  rw [key '\x0c' (by have e : ('\x0c' : Char).toNat = 12 := rfl; omega)]
  rw [key '\r' (by have e : ('\r' : Char).toNat = 13 := rfl; omega)]
  rw [key '\xa0' (by have e : ('\xa0' : Char).toNat = 160 := rfl; omega)]
  rfl

/-- A `head?` element is a member. -/
theorem mem_of_head?_eq (s : Str) (ch : Char) (h : s.head? = some ch) : ch ∈ s := by
  cases s with
  | nil => simp at h
  | cons c t =>
    rw [List.head?_cons] at h
    injection h with h2
    rw [← h2]
    simp

/-- A `getLast?` element is a member. -/
theorem mem_of_getLast?_eq (s : Str) (ch : Char) (h : s.getLast? = some ch) : ch ∈ s := by
  rw [← List.head?_reverse] at h
  have := mem_of_head?_eq _ _ h
  simpa using this

/-- Every character of a digit string passes the `allDigits` test. -/
theorem allDigits_natDigits (n : Nat) : allDigits (natDigits n) = true := by
  unfold allDigits
  rw [List.all_eq_true]
  intro ch hch
  exact ((natDigits_spec n).1 ch hch).1

/-- Digit strings contain no dot. -/
theorem natDigits_no_dot (n : Nat) : ∀ ch ∈ natDigits n, ch ≠ '.' := by
  intro ch hch
  obtain ⟨-, hlo, hhi⟩ := (natDigits_spec n).1 ch hch
  refine ne_char_of_toNat ch '.' ?_
  have hd : ('.' : Char).toNat = 46 := rfl
  omega

/-- `Number()` of a digit string is its numeric value. -/
theorem parseUnsigned_natDigits (n : Nat) :
    parseUnsigned (natDigits n) = some (n : ℚ) := by
  unfold parseUnsigned
  rw [splitOnChar_no_sep '.' _ (natDigits_no_dot n)]
  show (if (natDigits n ≠ [] && allDigits (natDigits n)) = true
    then some ((digitsVal (natDigits n) : ℚ)) else none) = some (n : ℚ)
  rw [if_pos (by simp [(natDigits_spec n).2.1, allDigits_natDigits])]
  rw [(natDigits_spec n).2.2]

/-- Trimming a digit string changes nothing. -/
theorem jsTrim_natDigits (n : Nat) : jsTrim (natDigits n) = natDigits n := by
  have hf : ∀ ch ∈ natDigits n, isJsWS ch = false := by
    intro ch hch
    obtain ⟨-, hlo, hhi⟩ := (natDigits_spec n).1 ch hch
    exact not_ws_of_toNat ch (by omega) (by omega)
  exact jsTrim_eq_self _ (fun ch hch => hf ch (mem_of_head?_eq _ _ hch))
    (fun ch hch => hf ch (mem_of_getLast?_eq _ _ hch))

/-- `Number()` of a serialized non-negative integer evaluates back to it. -/
theorem jsToNumber_natDigits (n : Nat) : jsToNumber (natDigits n) = .num (n : ℚ) := by
  obtain ⟨hc, hne, hval⟩ := natDigits_spec n
  unfold jsToNumber
  rw [jsTrim_natDigits]
  unfold jsToNumberT
  split
  · exact absurd (by assumption) hne
  · rename_i heq
    have hmem : ('-' : Char) ∈ natDigits n := by rw [heq]; simp
    have := (hc '-' hmem).2.1
    exact absurd this (by decide)
  · rename_i heq
    have hmem : ('+' : Char) ∈ natDigits n := by rw [heq]; simp
    have := (hc '+' hmem).2.1
    exact absurd this (by decide)
  · rw [parseUnsigned_natDigits]

/-- The parsed `Max-Age` of a serialized non-negative integer is accepted
(not below zero). -/
theorem ltZero_natCast (n : Nat) : JsNum.ltZero (.num (n : ℚ)) = false := by
  unfold JsNum.ltZero
  rw [decide_eq_false_iff_not]
  exact not_lt.mpr (Nat.cast_nonneg n)

/-- Rendering a non-negative integer `maxAge` gives its digit string. -/
theorem jsNumOptToStr_natCast (n : Nat) :
    jsNumOptToStr (some (.num (n : ℚ))) = natDigits n := by
  show jsIntToStr ((n : ℚ)).num = natDigits n
  unfold jsIntToStr
  rw [Rat.num_natCast]
  rw [if_neg (not_lt.mpr (Int.natCast_nonneg n)), Int.toNat_natCast]

/-- Eliminate the boolean edge-whitespace test into its pointwise form. -/
theorem optAll_ws_elim (o : Option Char)
    (h : (o.all fun ch => !isJsWS ch) = true) :
    ∀ ch, o = some ch → isJsWS ch = false := by
  intro ch hch
  rw [hch] at h
  simpa using h

/-- Introduce the boolean edge-whitespace test from its pointwise form. -/
theorem optAll_ws_intro (o : Option Char)
    (h : ∀ ch, o = some ch → isJsWS ch = false) :
    (o.all fun ch => !isJsWS ch) = true := by
  cases o with
  | none => rfl
  | some ch => simp [h ch rfl]

/-- A printable-ASCII character other than space is not JS whitespace. -/
theorem not_ws_of_printable (ch : Char) (h1 : 0x20 <= ch.toNat) (h2 : ch.toNat <= 0x7e)
    (h3 : ch ≠ ' ') : isJsWS ch = false := by
  have key : ∀ c2 : Char, ch.toNat ≠ c2.toNat → decide (ch = c2) = false := by
    intro c2 hn
    rw [decide_eq_false_iff_not]
    exact ne_char_of_toNat ch c2 hn
  unfold isJsWS
  rw [show decide (ch = ' ') = false from decide_eq_false_iff_not.mpr h3]
  rw [key '\t' (by have e : ('\t' : Char).toNat = 9 := rfl; omega)]
  rw [key '\n' (by have e : ('\n' : Char).toNat = 10 := rfl; omega)]
  rw [key '\x0b' (by have e : ('\x0b' : Char).toNat = 11 := rfl; omega)]
  rw [key '\x0c' (by have e : ('\x0c' : Char).toNat = 12 := rfl; omega)]
  rw [key '\r' (by have e : ('\r' : Char).toNat = 13 := rfl; omega)]
  rw [key '\xa0' (by have e : ('\xa0' : Char).toNat = 160 := rfl; omega)]
  rfl

/-- Facts about every character of a regexp-valid name: printable, not
whitespace, not `;`, not `=`. -/
theorem fieldContentOk_chars (s : Str) (h : fieldContentOk s = true) :
    ∀ ch ∈ s, isJsWS ch = false ∧ ch ≠ ';' ∧ ch ≠ '=' := by
  unfold fieldContentOk at h
  rw [Bool.and_eq_true, List.all_eq_true] at h
  intro ch hch
  have h2 := h.2 ch hch
  rw [Bool.and_eq_true, Bool.and_eq_true, Bool.not_eq_true'] at h2
  obtain ⟨⟨-, -⟩, hbad⟩ := h2
  have hws : isJsWS ch = false := by
    cases hwsc : isJsWS ch with
    | false => rfl
    | true =>
      have hb : nameBadChar ch = true := by
        unfold nameBadChar
        rw [hwsc]
        rfl
      rw [hb] at hbad
      exact absurd hbad (by decide)
  have h3b : ch.toNat ≠ 0x3b := by
    intro hc
    have hb : nameBadChar ch = true := by
      unfold nameBadChar
      rw [hc]
      simp
    rw [hb] at hbad
    exact absurd hbad (by decide)
  have h3d : ch.toNat ≠ 0x3d := by
    intro hc
    have hb : nameBadChar ch = true := by
      unfold nameBadChar
      rw [hc]
      simp
    rw [hb] at hbad
    exact absurd hbad (by decide)
  refine ⟨hws, ?_, ?_⟩
  · exact ne_char_of_toNat ch ';' (by have e : (';' : Char).toNat = 59 := rfl; omega)
  · exact ne_char_of_toNat ch '=' (by have e : ('=' : Char).toNat = 61 := rfl; omega)

/-- Facts about every character of a validated cookie value: in
`0x21..0x80`, hence printable-or-high, not whitespace, and not `;`. -/
theorem validateValue_ok_chars (name v : Str) (h : validateValue name v = .ok ()) :
    ∀ ch ∈ v, 0x21 <= ch.toNat ∧ ch.toNat <= 0x80 ∧ ch ≠ ';' := by
  induction v with
  | nil => intro ch hch; simp at hch
  | cons c rest ih =>
    simp only [validateValue] at h
    by_cases h1 : (c.toNat < 0x21 || c.toNat = 0x22 || c.toNat = 0x2c ||
        c.toNat = 0x3b || c.toNat = 0x5c || c.toNat = 0x7f) = true
    · rw [if_pos h1] at h
      exact absurd h (by simp)
    · rw [if_neg h1] at h
      by_cases h2 : c.toNat > 0x80
      · rw [if_pos h2] at h
        exact absurd h (by simp)
      · rw [if_neg h2] at h
        intro ch hch
        rcases List.mem_cons.mp hch with rfl | hch2
        · simp only [Bool.or_eq_true, decide_eq_true_eq, not_or] at h1
          refine ⟨by omega, by omega, ?_⟩
          exact ne_char_of_toNat ch ';' (by have e : (';' : Char).toNat = 59 := rfl; omega)
        · exact ih h ch hch2

/-- Facts about every character of a validated cookie path: printable
ASCII and not `;`. -/
theorem validatePath_ok_chars (p : Str) (h : validatePath p = .ok ()) :
    ∀ ch ∈ p, 0x20 <= ch.toNat ∧ ch.toNat <= 0x7e ∧ ch ≠ ';' := by
  induction p with
  | nil => intro ch hch; simp at hch
  | cons c rest ih =>
    simp only [validatePath] at h
    by_cases h1 : (c.toNat < 0x20 || c.toNat > 0x7e || c = ';') = true
    · rw [if_pos h1] at h
      exact absurd h (by simp)
    · rw [if_neg h1] at h
      intro ch hch
      rcases List.mem_cons.mp hch with rfl | hch2
      · simp only [Bool.or_eq_true, decide_eq_true_eq, not_or] at h1
        exact ⟨by omega, by omega, h1.2⟩
      · exact ih h ch hch2

/-! ## Theorems: serialization stage values under round-trip hypotheses -/

/-- The reserved-prefix mutation is the identity off the reserved
prefixes. -/
theorem mutateReserved_eq_self (c : Cookie)
    (hs : (str "__Secure").isPrefixOf c.name = false)
    (hh : (str "__Host").isPrefixOf c.name = false) :
    mutateReserved c = c := by
  simp [mutateReserved, hs, hh]

/-- `cookieToString` after successful validation serializes the mutated
record's segments. -/
theorem cookieToStringE_eq (c : Cookie) (hne : c.name ≠ [])
    (hvn : validateName c.name = .ok ())
    (hvv : validateValue c.name c.value = .ok ()) :
    cookieToStringE c =
      (match serializeSegs (mutateReserved c) with
       | .error e => .error e
       | .ok out => .ok (joinSep (str "; ") out)) := by
  unfold cookieToStringE cookieToStringFull
  rw [if_neg hne, hvn, hvv]

theorem segMaxAge_of_none (c : Cookie) (h : c.maxAge = none) (out : List Str) :
    segMaxAge c out = .ok out := by
  unfold segMaxAge
  rw [h]
  rfl

theorem segMaxAge_of_nat (c : Cookie) (n : Nat) (h : c.maxAge = some (.num (n : ℚ)))
    (out : List Str) :
    segMaxAge c out = .ok (out ++ [str "Max-Age=" ++ natDigits n]) := by
  have h1 : optIsInteger c.maxAge = true := by
    rw [h]
    show JsNum.isInteger (.num (n : ℚ)) = true
    simp [JsNum.isInteger, Rat.den_natCast]
  have h2 : optLtZero c.maxAge = false := by
    rw [h]
    show JsNum.ltZero (.num (n : ℚ)) = false
    exact ltZero_natCast n
  unfold segMaxAge
  rw [h1, h2]
  simp only [if_true, Bool.false_eq_true, if_false]
  rw [h, jsNumOptToStr_natCast]

theorem segDomain_of_none (c : Cookie) (h : strTruthy c.domain = false)
    (out : List Str) : segDomain c out = .ok out := by
  unfold segDomain
  rw [h]
  rfl

theorem segDomain_of_some (c : Cookie) (d : Str) (h : c.domain = some d)
    (hne : d ≠ []) (hvd : validateDomain d = .ok ()) (out : List Str) :
    segDomain c out = .ok (out ++ [str "Domain=" ++ d]) := by
  have ht : strTruthy c.domain = true := by rw [h]; simp [strTruthy, hne]
  unfold segDomain
  rw [ht]
  simp only [if_true, h, Option.getD_some]
  rw [hvd]

theorem segSameSite_of_none (c : Cookie) (h : strTruthy c.sameSite = false)
    (out : List Str) : segSameSite c out = out := by
  unfold segSameSite
  rw [h]
  rfl

theorem segSameSite_of_some (c : Cookie) (s : Str) (h : c.sameSite = some s)
    (hne : s ≠ []) (out : List Str) :
    segSameSite c out = out ++ [str "SameSite=" ++ s] := by
  have ht : strTruthy c.sameSite = true := by rw [h]; simp [strTruthy, hne]
  unfold segSameSite
  rw [ht]
  simp only [if_true, h, Option.getD_some]

theorem segPath_of_none (c : Cookie) (h : strTruthy c.path = false)
    (out : List Str) : segPath c out = .ok out := by
  unfold segPath
  rw [h]
  rfl

theorem segPath_of_some (c : Cookie) (p : Str) (h : c.path = some p)
    (hne : p ≠ []) (hvp : validatePath p = .ok ()) (out : List Str) :
    segPath c out = .ok (out ++ [str "Path=" ++ p]) := by
  have ht : strTruthy c.path = true := by rw [h]; simp [strTruthy, hne]
  unfold segPath
  rw [ht]
  simp only [if_true, h, Option.getD_some]
  rw [hvp]

theorem segExpires_of_none (c : Cookie) (h : c.expires = none) (out : List Str) :
    segExpires c out = out := by
  unfold segExpires
  rw [h]
  rfl

theorem segUnparsed_of_none (c : Cookie) (h : c.unparsed = none) (out : List Str) :
    segUnparsed c out = out := by
  unfold segUnparsed
  rw [h]

theorem serializeSegs_step (c : Cookie) (X : List Str)
    (h : segMaxAge c ([c.name ++ '=' :: c.value]
      ++ (if c.secure then [str "Secure"] else [])
      ++ (if c.httpOnly then [str "HttpOnly"] else [])
      ++ (if c.partitioned then [str "Partitioned"] else [])) = .ok X) :
    serializeSegs c = serializeTail c X := by
  unfold serializeSegs
  rw [h]

theorem serializeTail_step (c : Cookie) (out X : List Str)
    (h : segDomain c out = .ok X) :
    serializeTail c out = serializeTail2 c X := by
  unfold serializeTail
  rw [h]

theorem serializeTail2_step (c : Cookie) (out X : List Str)
    (h : segPath c (segSameSite c out) = .ok X) :
    serializeTail2 c out = .ok (segUnparsed c (segExpires c X)) := by
  unfold serializeTail2
  rw [h]

/-! ## Theorems: parse-side evaluation of serialized attribute segments -/

theorem applyAttr_secureKey (c : Cookie) :
    applyAttr c (str "Secure", []) = some { c with secure := true } := rfl

theorem applyAttr_httpOnlyKey (c : Cookie) :
    applyAttr c (str "HttpOnly", []) = some { c with httpOnly := true } := rfl

theorem applyAttr_partitionedKey (c : Cookie) :
    applyAttr c (str "Partitioned", []) =
      some { c with unparsed := some ((c.unparsed.getD []) ++ [str "Partitioned="]) } := rfl

theorem applyAttr_domainKey (c : Cookie) (d : Str) :
    applyAttr c (str "Domain", d) =
      some { c with domain := some (stripDot (jsTrim d)) } := rfl

theorem applyAttr_pathKey (c : Cookie) (p : Str) :
    applyAttr c (str "Path", p) = some { c with path := some p } := rfl

theorem applyAttr_sameSiteKey (c : Cookie) (s : Str) :
    applyAttr c (str "SameSite", s) = some { c with sameSite := some s } := rfl

theorem applyAttr_maxAgeKey (c : Cookie) (n : Nat) :
    applyAttr c (str "Max-Age", natDigits n) =
      some { c with maxAge := some (.num (n : ℚ)) } := by
  have h1 : applyAttr c (str "Max-Age", natDigits n) =
      (if (jsToNumber (natDigits n)).ltZero = true then none
       else some { c with maxAge := some (jsToNumber (natDigits n)) }) := rfl
  rw [h1, jsToNumber_natDigits, ltZero_natCast]
  simp

/-- Trim and dot-strip are the identity on a round-trippable domain
value. -/
theorem stripDot_jsTrim_eq_self (d : Str)
    (hhead : ∀ ch, d.head? = some ch → isJsWS ch = false)
    (hlast : ∀ ch, d.getLast? = some ch → isJsWS ch = false)
    (hdot : d.head? ≠ some '.') :
    stripDot (jsTrim d) = d := by
  rw [jsTrim_eq_self d hhead hlast]
  cases d with
  | nil => rfl
  | cons c t =>
    show (if c = '.' then t else c :: t) = c :: t
    rw [if_neg]
    intro hc
    subst hc
    exact hdot rfl

/-! ## Theorems: good segments -/

/-- A `Key=value` segment whose literal key part is good and whose value
part has no `;` and no trailing whitespace is a good segment. -/
theorem goodSeg_lit_append (k d : Str) (hkne : k ≠ [])
    (hk1 : ∀ ch ∈ k, ch ≠ ';')
    (hk2 : (k.head?.all fun ch => !isJsWS ch) = true)
    (hk3 : (k.getLast?.all fun ch => !isJsWS ch) = true)
    (hd : ∀ ch ∈ d, ch ≠ ';')
    (hdlast : ∀ ch, d.getLast? = some ch → isJsWS ch = false) :
    GoodSeg (k ++ d) := by
  refine ⟨?_, ?_, ?_⟩
  · intro ch hch
    rw [List.mem_append] at hch
    rcases hch with h | h
    · exact hk1 ch h
    · exact hd ch h
  · rw [head?_append_ne_nil _ _ hkne]
    exact hk2
  · by_cases hdn : d = []
    · subst hdn
      rw [List.append_nil]
      exact hk3
    · rw [getLast?_append_ne_nil _ _ hdn]
      exact optAll_ws_intro _ hdlast

/-! ## Theorems: the parse pipeline on a joined segment list -/

theorem parseSetCookie_joined (nm v : Str) (segs : List Str)
    (hnm_ne : nm ≠ [])
    (hnm : ∀ ch ∈ nm, ch ≠ ';' ∧ ch ≠ '=' ∧ isJsWS ch = false)
    (hv : ∀ ch ∈ v, ch ≠ ';' ∧ isJsWS ch = false)
    (hsegs : ∀ s ∈ segs, GoodSeg s) :
    parseSetCookie (joinSep (str "; ") ((nm ++ '=' :: v) :: segs)) =
      match applyAttrs { name := nm, value := v } (segs.map splitFirstEq) with
      | none => none
      | some c => reservedChecks c := by
  have hns : ∀ ch ∈ nm ++ '=' :: v, ch ≠ ';' := by
    intro ch hch
    rw [List.mem_append] at hch
    rcases hch with h | h
    · exact (hnm ch h).1
    · rcases List.mem_cons.mp h with rfl | h2
      · decide
      · exact (hv ch h2).1
  have hsplit := splitOnChar_semi_joinSegs segs (nm ++ '=' :: v) hns
    (fun s hs => (hsegs s hs).1)
  unfold parseSetCookie
  rw [hsplit, List.map_cons]
  have htrim0 : jsTrim (nm ++ '=' :: v) = nm ++ '=' :: v := by
    refine jsTrim_eq_self _ ?_ ?_
    · intro ch hch
      rw [head?_append_ne_nil _ _ hnm_ne] at hch
      exact (hnm ch (mem_of_head?_eq _ _ hch)).2.2
    · intro ch hch
      rw [getLast?_append_ne_nil _ _ (by simp)] at hch
      by_cases hvn : v = []
      · subst hvn
        rw [show (['='] : Str).getLast? = some '=' from rfl] at hch
        injection hch with h2
        rw [← h2]
        decide
      · rw [getLast?_cons_ne_nil _ _ hvn] at hch
        exact (hv ch (mem_of_getLast?_eq _ _ hch)).2
  rw [htrim0]
  rw [splitFirstEq_keyval nm v (fun ch h => (hnm ch h).2.1)]
  have htail : (segs.map (fun s => ' ' :: s)).map (fun attr => splitFirstEq (jsTrim attr)) =
      segs.map splitFirstEq := by
    rw [List.map_map]
    refine List.map_congr_left ?_
    intro s hs
    show splitFirstEq (jsTrim (' ' :: s)) = splitFirstEq s
    rw [jsTrim_cons_space]
    rw [jsTrim_eq_self s (optAll_ws_elim _ (hsegs s hs).2.1)
      (optAll_ws_elim _ (hsegs s hs).2.2)]
  rw [htail]

/-- One singleton attribute list applies its one attribute. -/
theorem applyAttrs_single (X upd : Cookie) (kv : Str × Str)
    (h : applyAttr X kv = some upd) : applyAttrs X [kv] = some upd := by
  have h1 : applyAttrs X [kv] =
      match applyAttr X kv with
      | none => none
      | some c2 => applyAttrs c2 [] := rfl
  rw [h1, h]
  rfl

/-- A chunk whose effect is the record transformation `F` followed by the
remaining attributes. -/
theorem applyAttrs_chunkF (X : Cookie) (F : Cookie → Cookie)
    (ch rest : List (Str × Str)) (h : applyAttrs X ch = some (F X)) :
    applyAttrs X (ch ++ rest) = applyAttrs (F X) rest := by
  rw [applyAttrs_append, h]

/-- Mapping over an optional one-element chunk. -/
theorem map_flagChunk (b : Bool) (x : Str) :
    (if b then [x] else []).map splitFirstEq =
      if b then [splitFirstEq x] else [] := by
  cases b <;> rfl

/-- A prefix remains a prefix after dropping its last character. -/
theorem isPrefixOf_of_snoc (a : Str) (ch : Char) :
    ∀ n, (a ++ [ch]).isPrefixOf n = true → a.isPrefixOf n = true := by
  induction a with
  | nil => intro n _; cases n <;> rfl
  | cons x a2 ih =>
    intro n h
    match n with
    | [] => simp [List.isPrefixOf] at h
    | y :: n2 =>
      rw [List.cons_append] at h
      rw [show List.isPrefixOf (x :: (a2 ++ [ch])) (y :: n2) =
        (x == y && List.isPrefixOf (a2 ++ [ch]) n2) from rfl] at h
      rw [show List.isPrefixOf (x :: a2) (y :: n2) =
        (x == y && List.isPrefixOf a2 n2) from rfl]
      rw [Bool.and_eq_true] at h ⊢
      exact ⟨h.1, ih n2 h.2⟩

/-- Extending a non-prefix by one character keeps it a non-prefix. -/
theorem prefix_snoc_false (a : Str) (ch : Char) (n : Str)
    (h : a.isPrefixOf n = false) : (a ++ [ch]).isPrefixOf n = false := by
  cases hx : (a ++ [ch]).isPrefixOf n with
  | false => rfl
  | true =>
    rw [isPrefixOf_of_snoc a ch n hx] at h
    exact absurd h (by decide)

/-! ## Theorems: the serialized Expires value -/

/-- Characters of an append, given facts about both parts. -/
theorem mem_append_no_semi (a b : Str) (ha : ∀ ch ∈ a, ch ≠ ';') (hb : ∀ ch ∈ b, ch ≠ ';') :
    ∀ ch ∈ a ++ b, ch ≠ ';' := by
  intro ch hch
  rcases List.mem_append.mp hch with h | h
  · exact ha ch h
  · exact hb ch h

/-- A decimal digit string contains no `;`. -/
theorem natDigits_no_semi (n : Nat) : ∀ ch ∈ natDigits n, ch ≠ ';' := by
  intro ch hch
  obtain ⟨-, hlo, hhi⟩ := (natDigits_spec n).1 ch hch
  exact ne_char_of_toNat ch ';' (by have e : (';' : Char).toNat = 59 := rfl; omega)

/-- A two-digit padded number contains no `;`. -/
theorem pad2_no_semi (n : Nat) : ∀ ch ∈ pad2 n, ch ≠ ';' := by
  unfold pad2
  by_cases h : n < 10
  · rw [if_pos h]
    intro ch hch
    rcases List.mem_cons.mp hch with rfl | hch2
    · decide
    · exact natDigits_no_semi n ch hch2
  · rw [if_neg h]
    exact natDigits_no_semi n

/-- A four-digit padded number contains no `;`. -/
theorem pad4_no_semi (n : Nat) : ∀ ch ∈ pad4 n, ch ≠ ';' := by
  unfold pad4
  by_cases h1 : n < 10
  · rw [if_pos h1]
    exact mem_append_no_semi _ _ (by decide) (natDigits_no_semi n)
  · rw [if_neg h1]
    by_cases h2 : n < 100
    · rw [if_pos h2]
      exact mem_append_no_semi _ _ (by decide) (natDigits_no_semi n)
    · rw [if_neg h2]
      by_cases h3 : n < 1000
      · rw [if_pos h3]
        intro ch hch
        rcases List.mem_cons.mp hch with rfl | hch2
        · decide
        · exact natDigits_no_semi n ch hch2
      · rw [if_neg h3]
        exact natDigits_no_semi n

/-- Weekday names contain no `;`. -/
theorem dayName_no_semi : ∀ n, ∀ ch ∈ dayName n, ch ≠ ';'
  | 0 => by decide
  | 1 => by decide
  | 2 => by decide
  | 3 => by decide
  | 4 => by decide
  | 5 => by decide
  | n + 6 => by
    show ∀ ch ∈ str "Sat", ch ≠ ';'
    decide

/-- Month names contain no `;`. -/
theorem monthName_no_semi : ∀ n, ∀ ch ∈ monthName n, ch ≠ ';'
  | 0 => by decide
  | 1 => by decide
  | 2 => by decide
  | 3 => by decide
  | 4 => by decide
  | 5 => by decide
  | 6 => by decide
  | 7 => by decide
  | 8 => by decide
  | 9 => by decide
  | 10 => by decide
  | 11 => by decide
  | n + 12 => by
    show ∀ ch ∈ str "Dec", ch ≠ ';'
    decide

/-- The rendered UTC date string contains no `;`, for every input. -/
theorem toUTCString_no_semi (o : Option Int) : ∀ ch ∈ toUTCString o, ch ≠ ';' := by
  cases o with
  | none => decide
  | some ms =>
    unfold toUTCString
    refine mem_append_no_semi _ _ ?_ (by decide)
    refine mem_append_no_semi _ _ ?_ (pad2_no_semi _)
    refine mem_append_no_semi _ _ ?_ (by decide)
    refine mem_append_no_semi _ _ ?_ (pad2_no_semi _)
    refine mem_append_no_semi _ _ ?_ (by decide)
    refine mem_append_no_semi _ _ ?_ (pad2_no_semi _)
    refine mem_append_no_semi _ _ ?_ (by decide)
    refine mem_append_no_semi _ _ ?_ (pad4_no_semi _)
    refine mem_append_no_semi _ _ ?_ (by decide)
    refine mem_append_no_semi _ _ ?_ (monthName_no_semi _)
    refine mem_append_no_semi _ _ ?_ (by decide)
    refine mem_append_no_semi _ _ ?_ (pad2_no_semi _)
    refine mem_append_no_semi _ _ ?_ (by decide)
    exact dayName_no_semi _

/-- The rendered UTC date string ends in a non-whitespace character
(`T` of `GMT`, or `e` of `Invalid Date`). -/
theorem toUTCString_last_not_ws (o : Option Int) :
    ∀ ch, (toUTCString o).getLast? = some ch → isJsWS ch = false := by
  cases o with
  | none => exact optAll_ws_elim _ (by decide)
  | some ms =>
    intro ch hch
    unfold toUTCString at hch
    rw [getLast?_append_ne_nil _ (str " GMT") (by decide)] at hch
    rw [show (str " GMT").getLast? = some 'T' from rfl] at hch
    injection hch with h2
    rw [← h2]
    decide

/-- The serialized Expires value contains no `;`. -/
theorem expiresToUTC_no_semi (v : ExpiresV) : ∀ ch ∈ expiresToUTC v, ch ≠ ';' := by
  cases v with
  | numV m => exact toUTCString_no_semi (some m)
  | dateV o => exact toUTCString_no_semi o

/-- The serialized Expires value ends in a non-whitespace character. -/
theorem expiresToUTC_last_not_ws (v : ExpiresV) :
    ∀ ch, (expiresToUTC v).getLast? = some ch → isJsWS ch = false := by
  cases v with
  | numV m => exact toUTCString_last_not_ws (some m)
  | dateV o => exact toUTCString_last_not_ws o

/-- The `Expires` step when `cookie.expires` is truthy. -/
theorem segExpires_of_truthy (c : Cookie) (h : expiresTruthy c.expires = true)
    (out : List Str) :
    segExpires c out = out ++ [str "Expires=" ++ expiresToUTC (c.expires.getD (.numV 0))] := by
  unfold segExpires
  rw [h]
  rfl

/-- The `Expires` step when `cookie.expires` is falsy. -/
theorem segExpires_of_falsy (c : Cookie) (h : expiresTruthy c.expires = false)
    (out : List Str) : segExpires c out = out := by
  unfold segExpires
  rw [h]
  rfl

/-- The parser's `expires` branch sets only the `expires` field. -/
theorem applyAttr_expiresKey (c : Cookie) (v : Str) :
    applyAttr c (str "Expires", v) =
      some { c with expires := some (.dateV (jsDateParse v)) } := rfl

/-! ## Theorems: the round trip (claim C5) -/

/-- Composed evaluation of the tail serializer when the unparsed
attributes are absent. -/
theorem serializeTail2_eval (c : Cookie) (out ssCh pathCh expCh : List Str)
    (hSS : ∀ o, segSameSite c o = o ++ ssCh)
    (hPath : ∀ o, segPath c o = .ok (o ++ pathCh))
    (hExp : ∀ o, segExpires c o = o ++ expCh)
    (hunp : c.unparsed = none) :
    serializeTail2 c out = .ok (((out ++ ssCh) ++ pathCh) ++ expCh) := by
  rw [serializeTail2_step c out ((out ++ ssCh) ++ pathCh)
    (by rw [hSS out]; exact hPath (out ++ ssCh))]
  rw [hExp, segUnparsed_of_none c hunp]

/-- Composed evaluation of the whole segment serializer from chunk
descriptions of the four optional attributes. -/
theorem serializeSegs_eval (c : Cookie) (maCh domCh ssCh pathCh expCh : List Str)
    (hMA : ∀ o, segMaxAge c o = .ok (o ++ maCh))
    (hDom : ∀ o, segDomain c o = .ok (o ++ domCh))
    (hSS : ∀ o, segSameSite c o = o ++ ssCh)
    (hPath : ∀ o, segPath c o = .ok (o ++ pathCh))
    (hExp : ∀ o, segExpires c o = o ++ expCh)
    (hunp : c.unparsed = none) :
    serializeSegs c = .ok ((c.name ++ '=' :: c.value) ::
      ((if c.secure then [str "Secure"] else []) ++
       ((if c.httpOnly then [str "HttpOnly"] else []) ++
        ((if c.partitioned then [str "Partitioned"] else []) ++
         (maCh ++ (domCh ++ (ssCh ++ (pathCh ++ expCh)))))))) := by
  rw [serializeSegs_step c _ (hMA _)]
  rw [serializeTail_step c _ _ (hDom _)]
  rw [serializeTail2_eval c _ ssCh pathCh expCh hSS hPath hExp hunp]
  simp [List.append_assoc]

/-- Claim C5 (amended): for a cookie whose regexp-valid name avoids the
reserved `__Secure`/`__Host` prefixes, whose value passes validation, with
no unparsed attributes, whose `maxAge` (if present) is a non-negative
integer, and whose `domain` / `sameSite` / `path` values (if present) are
non-empty and survive the header tokenization (no `;`, no whitespace at
the relevant edges, and no leading dot on the domain), parsing the
serialization yields a cookie with equal `name`, `value`, `domain`,
`path`, `secure`, `httpOnly`, `sameSite` and `maxAge`; the `expires`
field may hold anything, since its serialized form parses back only into
`expires` itself. -/
theorem parse_cookieToString_roundTrip (c : Cookie)
    (hn : fieldContentOk c.name = true)
    (hsec : (str "__Secure").isPrefixOf c.name = false)
    (hhost : (str "__Host").isPrefixOf c.name = false)
    (hvv : validateValue c.name c.value = .ok ())
    (hunp : c.unparsed = none)
    (hma : c.maxAge = none ∨ ∃ n : Nat, c.maxAge = some (.num (n : ℚ)))
    (hdom : c.domain = none ∨ ∃ d, c.domain = some d ∧ d ≠ [] ∧
      validateDomain d = .ok () ∧ d.head? ≠ some '.' ∧
      (∀ ch ∈ d, ch ≠ ';') ∧
      (∀ ch, d.head? = some ch → isJsWS ch = false) ∧
      (∀ ch, d.getLast? = some ch → isJsWS ch = false))
    (hss : c.sameSite = none ∨ ∃ s2, c.sameSite = some s2 ∧ s2 ≠ [] ∧
      (∀ ch ∈ s2, ch ≠ ';') ∧
      (∀ ch, s2.getLast? = some ch → isJsWS ch = false))
    (hpath : c.path = none ∨ ∃ p, c.path = some p ∧ p ≠ [] ∧
      validatePath p = .ok () ∧ p.getLast? ≠ some ' ') :
    ∃ s0 c2, cookieToStringE c = .ok s0 ∧ parseSetCookie s0 = some c2 ∧
      c2.name = c.name ∧ c2.value = c.value ∧ c2.domain = c.domain ∧
      c2.path = c.path ∧ c2.secure = c.secure ∧ c2.httpOnly = c.httpOnly ∧
      c2.sameSite = c.sameSite ∧ c2.maxAge = c.maxAge := by
  have hne : c.name ≠ [] := fieldContentOk_ne_nil c.name hn
  have hvn : validateName c.name = .ok () := validateName_ok_of_fieldContentOk c.name hn
  have hnmChars := fieldContentOk_chars c.name hn
  have hvChars := validateValue_ok_chars c.name c.value hvv
  obtain ⟨maCh, maF, hMAseg, hGoodMA, hmaApp, hmaEff, hmaPres⟩ :
      ∃ (maCh : List Str) (F : Cookie → Cookie),
        (∀ o, segMaxAge c o = .ok (o ++ maCh)) ∧
        (∀ s2 ∈ maCh, GoodSeg s2) ∧
        (∀ X, applyAttrs X (maCh.map splitFirstEq) = some (F X)) ∧
        (∀ X, X.maxAge = none → (F X).maxAge = c.maxAge) ∧
        (∀ X, (F X).name = X.name ∧ (F X).value = X.value ∧ (F X).domain = X.domain ∧
          (F X).path = X.path ∧ (F X).secure = X.secure ∧ (F X).httpOnly = X.httpOnly ∧
          (F X).sameSite = X.sameSite) := by
    rcases hma with h | ⟨n, h⟩
    · refine ⟨[], id, ?_, by simp, fun X => rfl, ?_, fun X => ⟨rfl, rfl, rfl, rfl, rfl, rfl, rfl⟩⟩
      · intro o
        rw [segMaxAge_of_none c h]
        simp
      · intro X hX
        rw [h]
        exact hX
    · refine ⟨[str "Max-Age=" ++ natDigits n],
        fun X => { X with maxAge := some (.num (n : ℚ)) }, ?_, ?_, ?_, ?_,
        fun X => ⟨rfl, rfl, rfl, rfl, rfl, rfl, rfl⟩⟩
      · intro o
        exact segMaxAge_of_nat c n h o
      · intro sg hsg
        rw [List.mem_singleton] at hsg
        subst hsg
        refine goodSeg_lit_append (str "Max-Age=") (natDigits n) (by decide)
          (by decide) (by decide) (by decide) ?_ ?_
        · intro ch hch
          obtain ⟨-, hlo, hhi⟩ := (natDigits_spec n).1 ch hch
          exact ne_char_of_toNat ch ';' (by have e : (';' : Char).toNat = 59 := rfl; omega)
        · intro ch hch
          obtain ⟨-, hlo, hhi⟩ := (natDigits_spec n).1 ch (mem_of_getLast?_eq _ _ hch)
          exact not_ws_of_toNat ch (by omega) (by omega)
      · intro X
        have hkv : splitFirstEq (str "Max-Age=" ++ natDigits n) = (str "Max-Age", natDigits n) := by
          rw [show str "Max-Age=" ++ natDigits n = str "Max-Age" ++ '=' :: natDigits n from rfl]
          exact splitFirstEq_keyval (str "Max-Age") (natDigits n) (by decide)
        rw [List.map_cons, List.map_nil, hkv]
        exact applyAttrs_single X _ _ (applyAttr_maxAgeKey X n)
      · intro X _
        show some (JsNum.num (n : ℚ)) = c.maxAge
        rw [h]
  obtain ⟨domCh, domF, hDomseg, hGoodDom, hdomApp, hdomEff, hdomPres⟩ :
      ∃ (domCh : List Str) (F : Cookie → Cookie),
        (∀ o, segDomain c o = .ok (o ++ domCh)) ∧
        (∀ s2 ∈ domCh, GoodSeg s2) ∧
        (∀ X, applyAttrs X (domCh.map splitFirstEq) = some (F X)) ∧
        (∀ X, X.domain = none → (F X).domain = c.domain) ∧
        (∀ X, (F X).name = X.name ∧ (F X).value = X.value ∧ (F X).maxAge = X.maxAge ∧
          (F X).path = X.path ∧ (F X).secure = X.secure ∧ (F X).httpOnly = X.httpOnly ∧
          (F X).sameSite = X.sameSite) := by
    rcases hdom with h | ⟨d, h, hdne, hvd, hdot, hdsemi, hdhead, hdlast⟩
    · refine ⟨[], id, ?_, by simp, fun X => rfl, ?_, fun X => ⟨rfl, rfl, rfl, rfl, rfl, rfl, rfl⟩⟩
      · intro o
        rw [segDomain_of_none c (by rw [h]; rfl)]
        simp
      · intro X hX
        rw [h]
        exact hX
    · refine ⟨[str "Domain=" ++ d], fun X => { X with domain := some (stripDot (jsTrim d)) },
        ?_, ?_, ?_, ?_, fun X => ⟨rfl, rfl, rfl, rfl, rfl, rfl, rfl⟩⟩
      · intro o
        exact segDomain_of_some c d h hdne hvd o
      · intro sg hsg
        rw [List.mem_singleton] at hsg
        subst hsg
        exact goodSeg_lit_append (str "Domain=") d (by decide) (by decide) (by decide)
          (by decide) hdsemi hdlast
      · intro X
        have hkv : splitFirstEq (str "Domain=" ++ d) = (str "Domain", d) := by
          rw [show str "Domain=" ++ d = str "Domain" ++ '=' :: d from rfl]
          exact splitFirstEq_keyval (str "Domain") d (by decide)
        rw [List.map_cons, List.map_nil, hkv]
        exact applyAttrs_single X _ _ (applyAttr_domainKey X d)
      · intro X _
        show some (stripDot (jsTrim d)) = c.domain
        rw [stripDot_jsTrim_eq_self d hdhead hdlast hdot, h]
  obtain ⟨ssCh, ssF, hSSseg, hGoodSS, hssApp, hssEff, hssPres⟩ :
      ∃ (ssCh : List Str) (F : Cookie → Cookie),
        (∀ o, segSameSite c o = o ++ ssCh) ∧
        (∀ s2 ∈ ssCh, GoodSeg s2) ∧
        (∀ X, applyAttrs X (ssCh.map splitFirstEq) = some (F X)) ∧
        (∀ X, X.sameSite = none → (F X).sameSite = c.sameSite) ∧
        (∀ X, (F X).name = X.name ∧ (F X).value = X.value ∧ (F X).domain = X.domain ∧
          (F X).path = X.path ∧ (F X).secure = X.secure ∧ (F X).httpOnly = X.httpOnly ∧
          (F X).maxAge = X.maxAge) := by
    rcases hss with h | ⟨s2, h, hsne, hssemi, hslast⟩
    · refine ⟨[], id, ?_, by simp, fun X => rfl, ?_, fun X => ⟨rfl, rfl, rfl, rfl, rfl, rfl, rfl⟩⟩
      · intro o
        rw [segSameSite_of_none c (by rw [h]; rfl), List.append_nil]
      · intro X hX
        rw [h]
        exact hX
    · refine ⟨[str "SameSite=" ++ s2], fun X => { X with sameSite := some s2 },
        ?_, ?_, ?_, ?_, fun X => ⟨rfl, rfl, rfl, rfl, rfl, rfl, rfl⟩⟩
      · intro o
        exact segSameSite_of_some c s2 h hsne o
      · intro sg hsg
        rw [List.mem_singleton] at hsg
        subst hsg
        exact goodSeg_lit_append (str "SameSite=") s2 (by decide) (by decide) (by decide)
          (by decide) hssemi hslast
      · intro X
        have hkv : splitFirstEq (str "SameSite=" ++ s2) = (str "SameSite", s2) := by
          rw [show str "SameSite=" ++ s2 = str "SameSite" ++ '=' :: s2 from rfl]
          exact splitFirstEq_keyval (str "SameSite") s2 (by decide)
        rw [List.map_cons, List.map_nil, hkv]
        exact applyAttrs_single X _ _ (applyAttr_sameSiteKey X s2)
      · intro X _
        show some s2 = c.sameSite
        rw [h]
  obtain ⟨pathCh, pathF, hPathseg, hGoodPath, hpathApp, hpathEff, hpathPres⟩ :
      ∃ (pathCh : List Str) (F : Cookie → Cookie),
        (∀ o, segPath c o = .ok (o ++ pathCh)) ∧
        (∀ s2 ∈ pathCh, GoodSeg s2) ∧
        (∀ X, applyAttrs X (pathCh.map splitFirstEq) = some (F X)) ∧
        (∀ X, X.path = none → (F X).path = c.path) ∧
        (∀ X, (F X).name = X.name ∧ (F X).value = X.value ∧ (F X).domain = X.domain ∧
          (F X).secure = X.secure ∧ (F X).httpOnly = X.httpOnly ∧
          (F X).sameSite = X.sameSite ∧ (F X).maxAge = X.maxAge) := by
    rcases hpath with h | ⟨p, h, hpne, hvp, hplast⟩
    · refine ⟨[], id, ?_, by simp, fun X => rfl, ?_, fun X => ⟨rfl, rfl, rfl, rfl, rfl, rfl, rfl⟩⟩
      · intro o
        rw [segPath_of_none c (by rw [h]; rfl)]
        simp
      · intro X hX
        rw [h]
        exact hX
    · refine ⟨[str "Path=" ++ p], fun X => { X with path := some p },
        ?_, ?_, ?_, ?_, fun X => ⟨rfl, rfl, rfl, rfl, rfl, rfl, rfl⟩⟩
      · intro o
        exact segPath_of_some c p h hpne hvp o
      · intro sg hsg
        rw [List.mem_singleton] at hsg
        subst hsg
        refine goodSeg_lit_append (str "Path=") p (by decide) (by decide) (by decide)
          (by decide) ?_ ?_
        · intro ch hch
          exact (validatePath_ok_chars p hvp ch hch).2.2
        · intro ch hch
          obtain ⟨ha, hb, -⟩ := validatePath_ok_chars p hvp ch (mem_of_getLast?_eq _ _ hch)
          refine not_ws_of_printable ch ha hb ?_
          intro he
          rw [he] at hch
          exact hplast hch
      · intro X
        have hkv : splitFirstEq (str "Path=" ++ p) = (str "Path", p) := by
          rw [show str "Path=" ++ p = str "Path" ++ '=' :: p from rfl]
          exact splitFirstEq_keyval (str "Path") p (by decide)
        rw [List.map_cons, List.map_nil, hkv]
        exact applyAttrs_single X _ _ (applyAttr_pathKey X p)
      · intro X _
        show some p = c.path
        rw [h]
  obtain ⟨expCh, expF, hExpseg, hGoodExp, hexpApp, hexpPres⟩ :
      ∃ (expCh : List Str) (F : Cookie → Cookie),
        (∀ o, segExpires c o = o ++ expCh) ∧
        (∀ s2 ∈ expCh, GoodSeg s2) ∧
        (∀ X, applyAttrs X (expCh.map splitFirstEq) = some (F X)) ∧
        (∀ X, (F X).name = X.name ∧ (F X).value = X.value ∧ (F X).domain = X.domain ∧
          (F X).path = X.path ∧ (F X).secure = X.secure ∧ (F X).httpOnly = X.httpOnly ∧
          (F X).sameSite = X.sameSite ∧ (F X).maxAge = X.maxAge) := by
    cases hT : expiresTruthy c.expires with
    | false =>
      refine ⟨[], id, ?_, by simp, fun X => rfl,
        fun X => ⟨rfl, rfl, rfl, rfl, rfl, rfl, rfl, rfl⟩⟩
      intro o
      rw [segExpires_of_falsy c hT, List.append_nil]
    | true =>
      refine ⟨[str "Expires=" ++ expiresToUTC (c.expires.getD (.numV 0))],
        fun X => { X with
          expires := some (.dateV (jsDateParse (expiresToUTC (c.expires.getD (.numV 0))))) },
        ?_, ?_, ?_, fun X => ⟨rfl, rfl, rfl, rfl, rfl, rfl, rfl, rfl⟩⟩
      · intro o
        exact segExpires_of_truthy c hT o
      · intro sg hsg
        rw [List.mem_singleton] at hsg
        subst hsg
        exact goodSeg_lit_append (str "Expires=") _ (by decide) (by decide) (by decide)
          (by decide) (expiresToUTC_no_semi _) (expiresToUTC_last_not_ws _)
      · intro X
        have hkv : splitFirstEq (str "Expires=" ++ expiresToUTC (c.expires.getD (.numV 0))) =
            (str "Expires", expiresToUTC (c.expires.getD (.numV 0))) := by
          rw [show str "Expires=" ++ expiresToUTC (c.expires.getD (.numV 0)) =
            str "Expires" ++ '=' :: expiresToUTC (c.expires.getD (.numV 0)) from rfl]
          exact splitFirstEq_keyval (str "Expires") _ (by decide)
        rw [List.map_cons, List.map_nil, hkv]
        exact applyAttrs_single X _ _ (applyAttr_expiresKey X _)
  have hflagGood : ∀ (b : Bool) (x : Str), GoodSeg x →
      ∀ s2 ∈ (if b then [x] else []), GoodSeg s2 := by
    intro b x hx s2 hs2
    cases b
    · simp at hs2
    · simp at hs2
      rw [hs2]
      exact hx
  have hsegsGood : ∀ s2 ∈ ((if c.secure then [str "Secure"] else []) ++
      ((if c.httpOnly then [str "HttpOnly"] else []) ++
       ((if c.partitioned then [str "Partitioned"] else []) ++
        (maCh ++ (domCh ++ (ssCh ++ (pathCh ++ expCh))))))), GoodSeg s2 := by
    intro s2 hs2
    simp only [List.mem_append] at hs2
    rcases hs2 with hs2 | hs2 | hs2 | hs2 | hs2 | hs2 | hs2 | hs2
    · exact hflagGood _ _ ⟨by decide, by decide, by decide⟩ s2 hs2
    · exact hflagGood _ _ ⟨by decide, by decide, by decide⟩ s2 hs2
    · exact hflagGood _ _ ⟨by decide, by decide, by decide⟩ s2 hs2
    · exact hGoodMA s2 hs2
    · exact hGoodDom s2 hs2
    · exact hGoodSS s2 hs2
    · exact hGoodPath s2 hs2
    · exact hGoodExp s2 hs2
  have hfinal : ∃ c2, applyAttrs { name := c.name, value := c.value }
      (((if c.secure then [str "Secure"] else []) ++
        ((if c.httpOnly then [str "HttpOnly"] else []) ++
         ((if c.partitioned then [str "Partitioned"] else []) ++
          (maCh ++ (domCh ++ (ssCh ++ (pathCh ++ expCh))))))).map splitFirstEq) = some c2 ∧
      c2.name = c.name ∧ c2.value = c.value ∧ c2.domain = c.domain ∧
      c2.path = c.path ∧ c2.secure = c.secure ∧ c2.httpOnly = c.httpOnly ∧
      c2.sameSite = c.sameSite ∧ c2.maxAge = c.maxAge := by
    simp only [List.map_append]
    rw [map_flagChunk, map_flagChunk, map_flagChunk]
    rw [splitFirstEq_no_eq (str "Secure") (by decide),
        splitFirstEq_no_eq (str "HttpOnly") (by decide),
        splitFirstEq_no_eq (str "Partitioned") (by decide)]
    rw [applyAttrs_chunk _ _ c.secure _ _ (applyAttr_secureKey _)]
    rw [applyAttrs_chunk _ _ c.httpOnly _ _ (applyAttr_httpOnlyKey _)]
    rw [applyAttrs_chunk _ _ c.partitioned _ _ (applyAttr_partitionedKey _)]
    rw [applyAttrs_chunkF _ maF _ _ (hmaApp _)]
    rw [applyAttrs_chunkF _ domF _ _ (hdomApp _)]
    rw [applyAttrs_chunkF _ ssF _ _ (hssApp _)]
    rw [applyAttrs_chunkF _ pathF _ _ (hpathApp _)]
    rw [hexpApp _]
    refine ⟨_, rfl, ?_, ?_, ?_, ?_, ?_, ?_, ?_, ?_⟩
    · rw [(hexpPres _).1, (hpathPres _).1, (hssPres _).1, (hdomPres _).1, (hmaPres _).1]
      cases c.secure <;> cases c.httpOnly <;> cases c.partitioned <;> rfl
    · rw [(hexpPres _).2.1, (hpathPres _).2.1, (hssPres _).2.1, (hdomPres _).2.1,
        (hmaPres _).2.1]
      cases c.secure <;> cases c.httpOnly <;> cases c.partitioned <;> rfl
    · rw [(hexpPres _).2.2.1, (hpathPres _).2.2.1, (hssPres _).2.2.1]
      refine hdomEff _ ?_
      rw [(hmaPres _).2.2.1]
      cases c.secure <;> cases c.httpOnly <;> cases c.partitioned <;> rfl
    · rw [(hexpPres _).2.2.2.1]
      refine hpathEff _ ?_
      rw [(hssPres _).2.2.2.1, (hdomPres _).2.2.2.1, (hmaPres _).2.2.2.1]
      cases c.secure <;> cases c.httpOnly <;> cases c.partitioned <;> rfl
    · rw [(hexpPres _).2.2.2.2.1, (hpathPres _).2.2.2.1, (hssPres _).2.2.2.2.1,
        (hdomPres _).2.2.2.2.1, (hmaPres _).2.2.2.2.1]
      cases c.secure <;> cases c.httpOnly <;> cases c.partitioned <;> rfl
    · rw [(hexpPres _).2.2.2.2.2.1, (hpathPres _).2.2.2.2.1, (hssPres _).2.2.2.2.2.1,
        (hdomPres _).2.2.2.2.2.1, (hmaPres _).2.2.2.2.2.1]
      cases c.secure <;> cases c.httpOnly <;> cases c.partitioned <;> rfl
    · rw [(hexpPres _).2.2.2.2.2.2.1, (hpathPres _).2.2.2.2.2.1]
      refine hssEff _ ?_
      rw [(hdomPres _).2.2.2.2.2.2, (hmaPres _).2.2.2.2.2.2]
      cases c.secure <;> cases c.httpOnly <;> cases c.partitioned <;> rfl
    · rw [(hexpPres _).2.2.2.2.2.2.2, (hpathPres _).2.2.2.2.2.2, (hssPres _).2.2.2.2.2.2,
        (hdomPres _).2.2.1]
      refine hmaEff _ ?_
      cases c.secure <;> cases c.httpOnly <;> cases c.partitioned <;> rfl
  obtain ⟨c2, happ, hf1, hf2, hf3, hf4, hf5, hf6, hf7, hf8⟩ := hfinal
  have hparse := parseSetCookie_joined c.name c.value
      ((if c.secure then [str "Secure"] else []) ++
       ((if c.httpOnly then [str "HttpOnly"] else []) ++
        ((if c.partitioned then [str "Partitioned"] else []) ++
         (maCh ++ (domCh ++ (ssCh ++ (pathCh ++ expCh))))))) hne
      (fun ch hch => ⟨(hnmChars ch hch).2.1, (hnmChars ch hch).2.2, (hnmChars ch hch).1⟩)
      (fun ch hch => ⟨(hvChars ch hch).2.2,
        not_ws_of_toNat ch (hvChars ch hch).1 (hvChars ch hch).2.1⟩)
      hsegsGood
  refine ⟨joinSep (str "; ") ((c.name ++ '=' :: c.value) ::
      ((if c.secure then [str "Secure"] else []) ++
       ((if c.httpOnly then [str "HttpOnly"] else []) ++
        ((if c.partitioned then [str "Partitioned"] else []) ++
         (maCh ++ (domCh ++ (ssCh ++ (pathCh ++ expCh)))))))), c2, ?_, ?_,
    hf1, hf2, hf3, hf4, hf5, hf6, hf7, hf8⟩
  · rw [cookieToStringE_eq c hne hvn hvv, mutateReserved_eq_self c hsec hhost]
    rw [serializeSegs_eval c maCh domCh ssCh pathCh expCh hMAseg hDomseg hSSseg
      hPathseg hExpseg hunp]
  · rw [hparse, happ]
    show reservedChecks c2 = some c2
    have h1 : (str "__Secure-").isPrefixOf c2.name = false := by
      rw [hf1, show str "__Secure-" = str "__Secure" ++ ['-'] from rfl]
      exact prefix_snoc_false _ _ _ hsec
    have h2 : (str "__Host-").isPrefixOf c2.name = false := by
      rw [hf1, show str "__Host-" = str "__Host" ++ ['-'] from rfl]
      exact prefix_snoc_false _ _ _ hhost
    unfold reservedChecks
    rw [h1, h2]
    simp

/-- A serializable cookie whose round trip changes a set field: the parser
trims a leading dot from the Domain value, so the domain `.example.com`
comes back as `example.com`, refuting the unamended claim. -/
theorem parse_cookieToString_dotDomain :
    cookieToStringE cookieDotDomain = .ok (str "a=b; Domain=.example.com") ∧
    (parseSetCookie (str "a=b; Domain=.example.com")).map Cookie.domain =
      some (some (str "example.com")) ∧
    cookieDotDomain.domain = some (str ".example.com") ∧
    some (str "example.com") ≠ some (str ".example.com") := by
  refine ⟨by decide, by decide, by decide, by decide⟩

/-- The round-trip theorem applied to a concrete fully populated cookie. -/
theorem parse_cookieToString_roundTrip_witness :
    ∃ s0 c2, cookieToStringE cookieRich = .ok s0 ∧ parseSetCookie s0 = some c2 ∧
      c2.name = cookieRich.name ∧ c2.value = cookieRich.value ∧
      c2.domain = cookieRich.domain ∧ c2.path = cookieRich.path ∧
      c2.secure = cookieRich.secure ∧ c2.httpOnly = cookieRich.httpOnly ∧
      c2.sameSite = cookieRich.sameSite ∧ c2.maxAge = cookieRich.maxAge :=
  parse_cookieToString_roundTrip cookieRich (by decide) (by decide) (by decide)
    (by decide) rfl
    (Or.inr ⟨30, by decide⟩)
    (Or.inr ⟨str "sub.example.com", rfl, by decide, by decide, by decide, by decide,
      optAll_ws_elim _ (by decide), optAll_ws_elim _ (by decide)⟩)
    (Or.inr ⟨str "Lax", rfl, by decide, by decide, optAll_ws_elim _ (by decide)⟩)
    (Or.inr ⟨str "/app", rfl, by decide, by decide, by decide⟩)

end Knifetch
